import Mathlib

/-!
Verification development for `.github/scripts/changelog/update_changelog.py`
(BananaWRT changelog assembler).

The Python script is embedded shallowly: strings are modelled as `List Char`
(Python `str` is a sequence of code points, as is `String.data`), the static
configuration tables (`EMOJI_MAP`, `CATEGORIES`, `FILTER_CONFIG`) are concrete
Lean data, and each Python function becomes a total Lean function of the same
name.  External collaborators (GitPython history walking, `hashlib.md5`,
`emoji.emoji_list`, file I/O) are modelled at their boundary: commit streams
are input lists, `md5` is an abstract parameter, and `emoji.emoji_list` is a
small concrete scanner over the fixed glyph set used by the script.

Python's `re.search` is embedded by hand-compiling each of the finitely many
regular expressions appearing in the script into a small abstract syntax
(`RSeq`, `RAtom`) whose matcher has the existential backtracking semantics of
the Python engine, or, for the few patterns with capture groups and word
boundaries, into dedicated search functions that realise exactly that
pattterned search.  All inputs considered are sequences of Unicode code
points; case folding is ASCII (`Char.toLower`), which agrees with Python
`str.lower` on the ASCII texts manipulated here.
-/

set_option maxRecDepth 100000

/-- Python `\w` (ASCII with `re.IGNORECASE`): `[A-Za-z0-9_]`. -/
def isWordChar (c : Char) : Bool := c.isAlphanum || c == ('_')

/-- Python `\s` (ASCII whitespace as used by `str.strip` and `\s`). -/
def isPySpace (c : Char) : Bool :=
  c == (' ') || c == ('\t') || c == ('\n') || c == ('\x0b') || c == ('\x0c') || c == ('\r')

/-- Python `str.lower` (ASCII case folding). -/
def toLowerL (s : List Char) : List Char := s.map (fun c => c.toLower)

/-- Python `str.strip()`: drop leading and trailing whitespace. -/
def pyStrip (s : List Char) : List Char :=
  ((s.dropWhile isPySpace).reverse.dropWhile isPySpace).reverse

/-- Python `s.split('\n')[0]`: the text before the first newline. -/
def firstLineOf (s : List Char) : List Char := s.takeWhile (fun c => c ≠ ('\n'))

/-- Python `s.split('\n')`: split at every newline; `""` splits to `[""]`. -/
def linesOf : List Char → List (List Char)
  | [] => [[]]
  | c :: cs =>
    if c = ('\n') then [] :: linesOf cs
    else
      match linesOf cs with
      | [] => [[c]]
      | l :: ls => (c :: l) :: ls

/-- Python `'\n'.join(lines)`. -/
def joinLines : List (List Char) → List Char
  | [] => []
  | [l] => l
  | l :: ls => l ++ ('\n') :: joinLines ls

/-- Index of the first occurrence of `pat` in `s` (`str.find` for found case). -/
def findOcc (pat s : List Char) : Option Nat :=
  (List.range (s.length + 1)).find? (fun i => pat.isPrefixOf (s.drop i))

/-- Python `sub in s` substring test. -/
def containsSub (s sub : List Char) : Bool := (findOcc sub s).isSome

/-! ### Embedded regular expressions

Each regex of the script is compiled by hand to this syntax.  An `RSeq` is one
alternative of a top-level alternation: an optional `^` anchor, a sequence of
atoms, and an optional `$` anchor.  Atoms cover exactly the constructs used by
the script's patterns: literal chunks, `.`/`\d`/`\w`/`\s` character classes
under `*`/`+`, and a grouped alternation of literals such as
`(add|update|fix|bump)`.  The matcher has the existential (backtracking)
semantics of `re.search`: a sequence matches a text iff some division of the
text realises it.  `IGNORECASE` call sites lower both text and pattern
literals; the compiled literals below are therefore written lower-cased.
-/

/-- Character classes appearing in the script's regexes. -/
inductive CCls where
  | dot   -- `.` : any character except newline
  | digit -- `\d`
  | word  -- `\w`
  | space -- `\s`
deriving DecidableEq

def CCls.test : CCls → Char → Bool
  | .dot, c => c ≠ ('\n')
  | .digit, c => c.isDigit
  | .word, c => isWordChar c
  | .space, c => isPySpace c

/-- One regex atom. -/
inductive RAtom where
  | lit (s : List Char)                 -- literal text
  | star (c : CCls)                     -- `c*`
  | plus (c : CCls)                     -- `c+`
  | litAlt (ss : List (List Char))      -- `(w1|w2|...)` over literals
deriving DecidableEq

/-- One alternative: optional `^`, atom sequence, optional `$`. -/
structure RSeq where
  anchorStart : Bool := false
  atoms : List RAtom
  anchorEnd : Bool := false
deriving DecidableEq

/-- Does the atom sequence match some prefix of `t` (all of `t` if `anchorEnd`)?
Existential over all consumption choices, as in backtracking `re`. -/
def seqMatchAt (anchorEnd : Bool) : List RAtom → List Char → Bool
  | [], t => !anchorEnd || t.isEmpty
  | .lit s :: as, t => s.isPrefixOf t && seqMatchAt anchorEnd as (t.drop s.length)
  | .star c :: as, t =>
    (List.range ((t.takeWhile c.test).length + 1)).any
      (fun n => seqMatchAt anchorEnd as (t.drop n))
  | .plus c :: as, t =>
    (List.range ((t.takeWhile c.test).length + 1)).any
      (fun n => decide (1 ≤ n) && seqMatchAt anchorEnd as (t.drop n))
  | .litAlt ss :: as, t =>
    ss.any (fun s => s.isPrefixOf t && seqMatchAt anchorEnd as (t.drop s.length))

/-- `re.search` of a compiled pattern: some alternative matches at some start
position (at position 0 only, when `^`-anchored). -/
def rSearch (re : List RSeq) (t : List Char) : Bool :=
  re.any (fun sq =>
    if sq.anchorStart then seqMatchAt sq.anchorEnd sq.atoms t
    else (List.range (t.length + 1)).any (fun i => seqMatchAt sq.anchorEnd sq.atoms (t.drop i)))

/-- A bare literal alternative (substring search). -/
def rlit (w : String) : RSeq := { atoms := [RAtom.lit w.data] }

/-- A `^`-anchored literal alternative. -/
def ranch (w : String) : RSeq := { anchorStart := true, atoms := [RAtom.lit w.data] }

/-- A literal alternative anchored at the end (`$`). -/
def rend (w : String) : RSeq := { atoms := [RAtom.lit w.data], anchorEnd := true }

/-- `a.*b`: two literals bridged by `.*`. -/
def rgap (a b : String) : RSeq := { atoms := [RAtom.lit a.data, RAtom.star CCls.dot, RAtom.lit b.data] }

example : rSearch [rlit ("security")] ("the security fix").data = true := by decide
example : rSearch [ranch ("feat:")] ("x feat: y").data = false := by decide
example : rSearch [rgap ("add") ("feature")] ("we add a new feature").data = true := by decide
example : rSearch [rend (".yml")] ("a/b.yml").data = true := by decide
example : rSearch [rend (".yml")] ("a/b.yml.bak").data = false := by decide
example : seqMatchAt false [RAtom.plus CCls.word, RAtom.lit (":").data,
    RAtom.star CCls.space, RAtom.litAlt [("add").data, ("fix").data]]
    ("pkg: fix things").data = true := by decide
/-- General alternative constructor. -/
def rseq (anchorStart : Bool) (atoms : List RAtom) (anchorEnd : Bool) : RSeq :=
  ⟨anchorStart, atoms, anchorEnd⟩

example : rSearch [rseq true
    [RAtom.plus CCls.word, RAtom.lit (":").data, RAtom.star CCls.space,
     RAtom.litAlt [("add").data, ("update").data, ("fix").data, ("bump").data]] false]
    ("fix: resolve login crash").data = false := by decide

/-! ### Word boundaries and dedicated searches

The script uses `\b`-delimited searches (`get_emoji_for_commit`, the package
backtick wrapping) and two capture-group regexes (`extract_package_name`, the
issue reference).  Each such call site builds its pattern from a known shape,
so each is embedded as a dedicated search function realising exactly the
semantics of that pattern.
-/

/-- Is the character at index `i` a word character (out of range counts as a
non-word position, as in `re`)? -/
def charAtIsWord (s : List Char) (i : Nat) : Bool :=
  match s.get? i with
  | some c => isWordChar c
  | none => false

/-- Python `\b` at position `i` of `s`: word-ness changes between the
character before `i` and the character at `i`. -/
def boundaryAt (s : List Char) (i : Nat) : Bool :=
  (if i = 0 then false else charAtIsWord s (i - 1)) != charAtIsWord s i

/-- `re.search(r'\b' + kw + r'\b', s)` for a literal `kw` (no flags): is there
an occurrence of `kw` flanked by word boundaries? -/
def wordSearch (kw s : List Char) : Bool :=
  (List.range (s.length + 1)).any (fun i =>
    kw.isPrefixOf (s.drop i) && boundaryAt s i && boundaryAt s (i + kw.length))

/-- `re.sub(r'\b' + re.escape(kw) + r'\b', repl, s, count=1, flags=re.IGNORECASE)`:
replace the first boundary-delimited, case-insensitive occurrence of `kw`. -/
def wordSubCI (kw repl s : List Char) : List Char :=
  match (List.range (s.length + 1)).find? (fun i =>
      (toLowerL kw).isPrefixOf (toLowerL (s.drop i)) &&
      boundaryAt s i && boundaryAt s (i + kw.length)) with
  | none => s
  | some i => s.take i ++ repl ++ s.drop (i + kw.length)

example : wordSearch ("fix").data ("fix: resolve login crash").data = true := by decide
example : wordSearch ("fix").data ("fixes #42 leak").data = false := by decide
example : wordSubCI ("fix").data ("`fix`").data ("fix: resolve login crash").data
    = ("`fix`: resolve login crash").data := by decide

/-- `EMOJI_MAP` of the script, in declared order (earlier entries win). -/
def EMOJI_MAP : List (String × String) :=
  [("fix", "🐛"), ("bug", "🐛"), ("hotfix", "🚑"), ("security", "🔒"),
   ("breaking", "💥"), ("feature", "✨"), ("feat", "✨"), ("add", "➕"),
   ("new", "🆕"), ("improve", "🌟"), ("enhance", "🌟"), ("optimize", "⚡"),
   ("perf", "⚡"), ("refactor", "♻️"), ("update", "🔄"), ("upgrade", "🔼"),
   ("bump", "🔼"), ("deps", "📦"), ("docs", "📝"), ("doc", "📝"),
   ("test", "🧪"), ("build", "🏗️"), ("ci", "🔄"), ("workflow", "🔄"),
   ("style", "🎨"), ("chore", "🧹"), ("cleanup", "🧹"), ("revert", "⏪"),
   ("remove", "🗑️"), ("config", "⚙️"), ("ui", "💅"), ("translation", "🌐"),
   ("i18n", "🌐"), ("network", "🔌"), ("core", "🍌"), ("package", "📦"),
   ("misc", "🛠️")]

/-- Modelled from the external library `emoji.emoji_list`: the pictographic
glyphs the script can encounter (the values of `EMOJI_MAP`). -/
def knownEmojis : List (List Char) :=
  (EMOJI_MAP.map (fun kv => kv.2.data)).dedup

/-- Modelled from the external library `emoji.emoji_list`: the script only
consumes `found_emojis[0]['match_start'] == 0` and the matched glyph, i.e.
whether the text starts with an emoji glyph and, if so, which one. -/
def leadingEmoji (s : List Char) : Option (List Char) :=
  knownEmojis.find? (fun g => g.isPrefixOf s)

/-- `get_emoji_for_commit` (source lines 224-235): leading glyph if present,
else the first `EMOJI_MAP` keyword occurring as a whole word in the
lower-cased message, else the fallback glyph. -/
def get_emoji_for_commit (commit_msg : List Char) : List Char :=
  match leadingEmoji commit_msg with
  | some g => g
  | none =>
    let commit_msg_lower := toLowerL commit_msg
    match EMOJI_MAP.find? (fun kv => wordSearch (kv.1.data) commit_msg_lower) with
    | some kv => kv.2.data
    | none => ("🛠️").data

example : get_emoji_for_commit ("fix: resolve login crash").data = ("🐛").data := by decide
example : get_emoji_for_commit ("fixes #42 leak").data = ("🛠️").data := by decide
example : get_emoji_for_commit ([]) = ("🛠️").data := by decide

/-- `extract_package_name` pattern 1, `` r'`([^`]+)`' ``: the first backtick
span.  The greedy `[^`]+` takes the maximal backtick-free run, which must be
non-empty and closed by a backtick (a shorter run would be followed by a
non-backtick character, which the pattern rejects). -/
def extractBacktick (s : List Char) : Option (List Char) :=
  ((List.range (s.length + 1)).find? (fun i =>
      match s.drop i with
      | c :: rest =>
        c == ('`') &&
        (let run := rest.takeWhile (fun d => d ≠ ('`'));
         !run.isEmpty && ((rest.drop run.length).headD (' ') == ('`')))
      | [] => false)).map (fun i =>
    (s.drop (i + 1)).takeWhile (fun d => d ≠ ('`')))

/-- Helper for `extract_package_name` pattern 2: consume `(?:-\w+)*` then
require `:`.  Word runs are forced maximal by backtracking (a shortened run is
followed by a word character, which matches neither `-` nor `:`), so the
greedy regex parse is this deterministic one. -/
def leadColonLoop (fuel : Nat) (acc t : List Char) : Option (List Char) :=
  match fuel, t with
  | _, (':') :: _ => some acc
  | Nat.succ fuel, ('-') :: rest =>
    let w := rest.takeWhile isWordChar
    if w.isEmpty then none
    else leadColonLoop fuel (acc ++ ('-') :: w) (rest.drop w.length)
  | _, _ => none

/-- `extract_package_name` pattern 2, `r'^(\w+(?:-\w+)*):'`: a leading
hyphenated word sequence followed by a colon; returns the group before `:`. -/
def extractLeadColon (s : List Char) : Option (List Char) :=
  let w := s.takeWhile isWordChar
  if w.isEmpty then none
  else leadColonLoop (s.length + 1) w (s.drop w.length)

/-- `extract_package_name` pattern 3, `r'\b(luci-app-\w+)\b'` with
`IGNORECASE`: leftmost boundary-preceded occurrence of `luci-app-` followed by
a non-empty word run (the trailing `\b` holds because the run is maximal);
the group is taken from the original string. -/
def extractLuci (s : List Char) : Option (List Char) :=
  let ls := toLowerL s
  ((List.range (s.length + 1)).find? (fun i =>
      ("luci-app-").data.isPrefixOf (ls.drop i) && boundaryAt s i &&
      !((s.drop (i + 9)).takeWhile isWordChar).isEmpty)).map (fun i =>
    (s.drop i).take (9 + ((s.drop (i + 9)).takeWhile isWordChar).length))

/-- The literal alternatives of `extract_package_name` pattern 4. -/
def knownPkgNames : List String :=
  ["banana-utils", "linkup-optimization", "modemband", "sms-tool"]

/-- `extract_package_name` pattern 4,
`r'\b(banana-utils|linkup-optimization|modemband|sms-tool)\b'` with
`IGNORECASE`: leftmost boundary-delimited occurrence of one of the known
names; the group is taken from the original string. -/
def extractKnownPkg (s : List Char) : Option (List Char) :=
  let ls := toLowerL s
  let hit := fun (i : Nat) => knownPkgNames.find? (fun w =>
    (w.data).isPrefixOf (ls.drop i) && boundaryAt s i && boundaryAt s (i + w.length))
  match (List.range (s.length + 1)).find? (fun i => (hit i).isSome) with
  | none => none
  | some i =>
    match hit i with
    | some w => some ((s.drop i).take w.length)
    | none => none

/-- `extract_package_name` (source lines 237-250): the four patterns tried in
declared order, first success wins. -/
def extract_package_name (message : List Char) : Option (List Char) :=
  (extractBacktick message).orElse (fun _ =>
    (extractLeadColon message).orElse (fun _ =>
      (extractLuci message).orElse (fun _ =>
        extractKnownPkg message)))

example : extract_package_name ("fix: resolve login crash").data = some (("fix").data) := by decide
example : extract_package_name ("use `sms-tool` now").data = some (("sms-tool").data) := by decide
example : extract_package_name ("tweak luci-app-foo a bit").data = some (("luci-app-foo").data) := by decide
example : extract_package_name ("zzz").data = none := by decide
example : extract_package_name ([]) = none := by decide

/-- The keyword alternatives of the issue-closing regex
`(?:fixes?|closes?|resolves?)`, in backtracking order (each `s?` tries the
longer variant first; alternatives are tried left to right). -/
def issueKeywords : List String :=
  ["fixes", "fixe", "closes", "close", "resolves", "resolve"]

/-- After an issue keyword: `\s*#(\d+)` — the maximal space run must be closed
by `#` (a shorter run is followed by a space, not `#`), then the group is the
maximal non-empty digit run. -/
def issueCont (t : List Char) : Option (List Char) :=
  match t.dropWhile isPySpace with
  | ('#') :: rest =>
    let ds := rest.takeWhile (fun c => c.isDigit)
    if ds.isEmpty then none else some ds
  | _ => none

/-- The issue regex tried at one start position (`IGNORECASE`: the keyword is
compared on the lower-cased text). -/
def issueAt (s : List Char) (i : Nat) : Option (List Char) :=
  match issueKeywords.find? (fun k =>
      (k.data).isPrefixOf (toLowerL (s.drop i)) &&
      (issueCont (s.drop (i + k.length))).isSome) with
  | some k => issueCont (s.drop (i + k.length))
  | none => none

/-- `re.search(r'(?:fixes?|closes?|resolves?)\s*#(\d+)', message, re.IGNORECASE)`
returning group 1: the digits of the leftmost match. -/
def issueSearch (s : List Char) : Option (List Char) :=
  match (List.range (s.length + 1)).find? (fun i => (issueAt s i).isSome) with
  | some i => issueAt s i
  | none => none

example : issueSearch ("fixes #42 leak").data = some (("42").data) := by decide
example : issueSearch ("fix #7").data = none := by decide
example : issueSearch ("Closes  #123!").data = some (("123").data) := by decide

/-- `format_commit_message` lines 274-278: append ` (#N)` for the leftmost
issue-closing phrase unless `(#N)` already occurs literally. -/
def annotate_issue (message : List Char) : List Char :=
  match issueSearch message with
  | some n =>
    if containsSub message ((("(#").data ++ n) ++ (")").data) then message
    else message ++ ((" (#").data ++ n) ++ (")").data
  | none => message

/-- `re.match(r'^[a-z]+:', message)`: a maximal non-empty run of `[a-z]`
closed by `:` (a shorter run is followed by a lowercase letter, not `:`). -/
def lowerColonMatch (message : List Char) : Bool :=
  let r := message.takeWhile (fun c => c.isLower)
  !r.isEmpty && ((message.drop r.length).headD (' ') == (':'))

/-- `format_commit_message` lines 262-263: capitalize the first character when
the message is non-empty, does not start with an uppercase character, and does
not start with a `[a-z]+:` conventional prefix. -/
def cap_step : List Char → List Char
  | [] => []
  | c :: rest =>
    if !c.isUpper && !lowerColonMatch (c :: rest) then c.toUpper :: rest
    else c :: rest

/-- `format_commit_message` lines 265-272: wrap the first boundary-delimited
occurrence of the package name in backticks, unless a backtick is present. -/
def wrap_package (package_name message : List Char) : List Char :=
  if containsSub message (("`").data) then message
  else wordSubCI package_name ((("`").data ++ package_name) ++ ("`").data) message

/-- A commit as delivered by the external harvester (GitPython): identity
hash, full message, author and committer display names, commit timestamp,
parent count, and the changed files of `get_commit_files` (an external diff). -/
structure RawCommit where
  hexsha : String
  message : String
  authorName : String
  committerName : String
  committedDate : Int
  parentCount : Nat
  files : List String
deriving DecidableEq

/-- `format_commit_message` (source lines 252-280) on code-point lists. -/
def formatL (msgFull author : List Char) : List Char :=
  let message := pyStrip (firstLineOf msgFull)
  let emoji_code := get_emoji_for_commit message
  let message := match leadingEmoji message with
    | some g => pyStrip (message.drop g.length)
    | none => message
  let package_name := extract_package_name message
  let message := cap_step message
  let message := match package_name with
    | some p => wrap_package p message
    | none => message
  let message := annotate_issue message
  (emoji_code ++ (' ') :: message) ++ (" by @").data ++ author

/-- `format_commit_message(commit, author)`. -/
def format_commit_message (commit : RawCommit) (author : String) : String :=
  ⟨formatL commit.message.data author.data⟩

example : formatL ("fix: resolve login crash").data ("sam").data
    = ("🐛 `fix`: resolve login crash by @sam").data := by decide
example : formatL ("fixes #42 leak").data ("sam").data
    = ("🛠️ Fixes #42 leak (#42) by @sam").data := by decide

/-! ### The category table and the classifier -/

/-- One entry of `CATEGORIES`: display name, rendering priority, compiled
message patterns and compiled file-path patterns.  Pattern literals are
written lower-cased: every use is under `re.IGNORECASE` and the classifier
additionally lowers the message itself, so matching is done lowered-on-lowered. -/
structure Category where
  name : String
  priority : Nat
  patterns : List (List RSeq)
  file_patterns : List (List RSeq)
deriving DecidableEq

/-- `security|cve|vulnerability|exploit|auth|crypto|ssl|tls|certificate` and
`critical|emergency|hotfix|urgent`; files `security/`, `auth/`, `crypto/`. -/
def security_critical : Category :=
  { name := "🔒 Security & Critical Fixes", priority := 1,
    patterns :=
      [[rlit ("security"), rlit ("cve"), rlit ("vulnerability"), rlit ("exploit"),
        rlit ("auth"), rlit ("crypto"), rlit ("ssl"), rlit ("tls"), rlit ("certificate")],
       [rlit ("critical"), rlit ("emergency"), rlit ("hotfix"), rlit ("urgent")]],
    file_patterns := [[rlit ("security/")], [rlit ("auth/")], [rlit ("crypto/")]] }

/-- `^feat:|^feature:|add.*feature|new.*feature|implement` and
`introduce|create.*new`. -/
def features : Category :=
  { name := "✨ New Features", priority := 2,
    patterns :=
      [[ranch ("feat:"), ranch ("feature:"), rgap ("add") ("feature"),
        rgap ("new") ("feature"), rlit ("implement")],
       [rlit ("introduce"), rgap ("create") ("new")]],
    file_patterns := [] }

/-- `improve|enhance|optimize|refactor|update.*logic|better` and
`performance|speed|faster`. -/
def improvements : Category :=
  { name := "🌟 Improvements & Enhancements", priority := 3,
    patterns :=
      [[rlit ("improve"), rlit ("enhance"), rlit ("optimize"), rlit ("refactor"),
        rgap ("update") ("logic"), rlit ("better")],
       [rlit ("performance"), rlit ("speed"), rlit ("faster")]],
    file_patterns := [] }

/-- `fix:|bug:|resolve|correct|repair|patch` and `issue.*#\d+|fixes.*#\d+`. -/
def bugfixes : Category :=
  { name := "🐛 Bug Fixes", priority := 4,
    patterns :=
      [[rlit ("fix:"), rlit ("bug:"), rlit ("resolve"), rlit ("correct"),
        rlit ("repair"), rlit ("patch")],
       [rseq false [RAtom.lit ("issue").data, RAtom.star CCls.dot,
                    RAtom.lit ("#").data, RAtom.plus CCls.digit] false,
        rseq false [RAtom.lit ("fixes").data, RAtom.star CCls.dot,
                    RAtom.lit ("#").data, RAtom.plus CCls.digit] false]],
    file_patterns := [] }

/-- `kernel|dts|openwrt|firmware|bootloader|uboot`; files `target/`,
`kernel/`, `\.dts`, `\.dtsi`, `config/Config-kernel`. -/
def bananawrt_core : Category :=
  { name := "🍌 BananaWRT Core", priority := 5,
    patterns :=
      [[rlit ("kernel"), rlit ("dts"), rlit ("openwrt"), rlit ("firmware"),
        rlit ("bootloader"), rlit ("uboot")]],
    file_patterns :=
      [[rlit ("target/")], [rlit ("kernel/")], [rlit (".dts")], [rlit (".dtsi")],
       [rlit ("config/config-kernel")]] }

/-- `luci-app-|package:|^(\w+):\s*(add|update|fix|bump)` and
`banana-utils|linkup-optimization|modemband|sms-tool`; files `package/`,
`feeds/`, `luci/`. -/
def packages : Category :=
  { name := "📦 Packages & Applications", priority := 6,
    patterns :=
      [[rlit ("luci-app-"), rlit ("package:"),
        rseq true [RAtom.plus CCls.word, RAtom.lit (":").data, RAtom.star CCls.space,
                   RAtom.litAlt [("add").data, ("update").data, ("fix").data, ("bump").data]] false],
       [rlit ("banana-utils"), rlit ("linkup-optimization"), rlit ("modemband"),
        rlit ("sms-tool")]],
    file_patterns := [[rlit ("package/")], [rlit ("feeds/")], [rlit ("luci/")]] }

/-- `workflow|github.*action|ci:|cd:|build:|cmake|makefile`; files `\.github/`,
`\.yml$`, `\.yaml$`, `Makefile`, `CMakeLists\.txt`. -/
def build_ci : Category :=
  { name := "🔄 Build System & CI", priority := 7,
    patterns :=
      [[rlit ("workflow"), rgap ("github") ("action"), rlit ("ci:"), rlit ("cd:"),
        rlit ("build:"), rlit ("cmake"), rlit ("makefile")]],
    file_patterns :=
      [[rlit (".github/")], [rend (".yml")], [rend (".yaml")], [rlit ("makefile")],
       [rlit ("cmakelists.txt")]] }

/-- `^docs:|documentation|readme|changelog|wiki`; files `README`, `CHANGELOG`,
`\.md$`, `docs/`. -/
def documentation : Category :=
  { name := "📝 Documentation", priority := 8,
    patterns :=
      [[ranch ("docs:"), rlit ("documentation"), rlit ("readme"),
        rlit ("changelog"), rlit ("wiki")]],
    file_patterns :=
      [[rlit ("readme")], [rlit ("changelog")], [rend (".md")], [rlit ("docs/")]] }

/-- The catch-all category. -/
def other : Category :=
  { name := "🛠️ Other Changes", priority := 99, patterns := [], file_patterns := [] }

/-- `CATEGORIES` of the script, in declared (dict insertion) order. -/
def CATEGORIES : List (String × Category) :=
  [("security_critical", security_critical), ("features", features),
   ("improvements", improvements), ("bugfixes", bugfixes),
   ("bananawrt_core", bananawrt_core), ("packages", packages),
   ("build_ci", build_ci), ("documentation", documentation), ("other", other)]

/-- The score accumulated for one category in `categorize_commit` (source
lines 297-306): +2 for each message pattern matching the lower-cased message,
+1 for each (changed file, file pattern) pair that matches — the inner loop
has no break, so one file can contribute once per matching pattern. -/
def category_score (commit_msg_lower : List Char) (files_changed : List String)
    (details : Category) : Nat :=
  2 * (details.patterns.countP (fun p => rSearch p commit_msg_lower))
    + (files_changed.map (fun f =>
        details.file_patterns.countP (fun p => rSearch p (toLowerL f.data)))).sum

/-- The `category_scores` dict (insertion order = table order, only positive
scores; source lines 294-309). -/
def category_scores (commit_msg_lower : List Char) (files_changed : List String)
    (table : List (String × Category)) : List (String × Nat) :=
  table.filterMap (fun kc =>
    let score := category_score commit_msg_lower files_changed kc.2
    if 0 < score then some (kc.1, score) else none)

/-- Python `max(category_scores, key=category_scores.get)`: the fold keeps the
current best and replaces it only on a strictly greater score, so the first
key attaining the maximum wins. -/
def maxByScore (x : String × Nat) (l : List (String × Nat)) : String × Nat :=
  l.foldl (fun best y => if best.2 < y.2 then y else best) x

/-- `categorize_commit` generalised over the category table (the script reads
the module-level `CATEGORIES`; source lines 292-317). -/
def categorize_with (table : List (String × Category)) (commit_msg : String)
    (files_changed : List String) : String :=
  let commit_msg_lower := toLowerL commit_msg.data
  match category_scores commit_msg_lower files_changed table with
  | [] => "other"
  | x :: xs =>
    let best := maxByScore x xs
    if best.2 < 2 && table.any (fun kc => kc.1 == "other") then "other"
    else best.1

/-- `categorize_commit(commit_msg, files_changed)`. -/
def categorize_commit (commit_msg : String) (files_changed : List String) : String :=
  categorize_with CATEGORIES commit_msg files_changed

example : categorize_commit ("fix: resolve login crash") [] = "bugfixes" := by decide
example : categorize_commit ("zzz") [("target/x")] = "other" := by decide
example : categorize_commit ("zzz") [] = "other" := by decide

/-! ### Filter, author resolution, and the per-repository harvest loop -/

/-- `FILTER_CONFIG` shape (the script may update it from an optional JSON
file; absent here, so the declared defaults apply). -/
structure FilterConfig where
  exclude_merge_commits : Bool
  exclude_patterns : List (List RSeq)
  include_workflow_commits : Bool

/-- The declared `FILTER_CONFIG` defaults, with the exclude regexes
`^typo:\s*fix`, `^docs:\s*update readme only`,
`^style:\s*whitespace|spacing|indent` compiled (note the third pattern's
top-level alternation makes `spacing` and `indent` unanchored). -/
def FILTER_CONFIG : FilterConfig :=
  { exclude_merge_commits := true,
    exclude_patterns :=
      [[rseq true [RAtom.lit ("typo:").data, RAtom.star CCls.space,
                   RAtom.lit ("fix").data] false],
       [rseq true [RAtom.lit ("docs:").data, RAtom.star CCls.space,
                   RAtom.lit ("update readme only").data] false],
       [rseq true [RAtom.lit ("style:").data, RAtom.star CCls.space,
                   RAtom.lit ("whitespace").data] false,
        rlit ("spacing"), rlit ("indent")]],
    include_workflow_commits := true }

/-- `should_skip_commit` (source lines 205-222): merge commits, exclude
patterns (`IGNORECASE`: matched on the lower-cased message), and optionally
messages containing `workflow`. -/
def should_skip_commit (config : FilterConfig) (commit : RawCommit) : Bool :=
  (config.exclude_merge_commits && decide (1 < commit.parentCount)) ||
  (config.exclude_patterns.any (fun p => rSearch p (toLowerL commit.message.data))) ||
  (!config.include_workflow_commits &&
    containsSub (toLowerL commit.message.data) (("workflow").data))

/-- Author resolution (source lines 345-350): the automation identity is
replaced by the committer, or by the fixed fallback. -/
def resolve_author (commit : RawCommit) : String :=
  if commit.authorName == "GitHub Actions" then
    if commit.committerName != "GitHub Actions" then commit.committerName
    else "SuperKali"
  else commit.authorName

/-- The per-commit record built by `get_recent_commits` (source lines 354-363). -/
structure ProcessedCommit where
  sha : String
  message : String
  author : String
  date : Int
  files : List String
  formatted : String
  category : String
  repo : String
deriving DecidableEq

/-- `f"{commit['sha']}:{commit['author']}:{commit['date']}"` (source line 320);
the timestamp is rendered with `toString`, standing in for Python `str` on the
datetime. -/
def unique_string (c : ProcessedCommit) : String :=
  c.sha ++ ":" ++ c.author ++ ":" ++ toString c.date

/-- `get_commit_hash` (source lines 319-321); `hashlib.md5(...).hexdigest()`
is external, abstracted as `md5`. -/
def get_commit_hash (md5 : String → String) (c : ProcessedCommit) : String :=
  md5 (unique_string c)

/-- The `commit_data` record of `get_recent_commits` (source lines 352-363). -/
def mkProcessed (repoName : String) (commit : RawCommit) : ProcessedCommit :=
  let author := resolve_author commit
  { sha := commit.hexsha, message := commit.message, author := author,
    date := commit.committedDate, files := commit.files,
    formatted := format_commit_message commit author,
    category := categorize_commit commit.message commit.files,
    repo := repoName }

/-- The harvest loop of `get_recent_commits` (source lines 330-368): walk the
history newest first, stop (`break`) at the first commit at or before the
cutoff, drop filtered commits, and drop commits whose fingerprint is in the
run-local `seen_hashes` set. -/
def get_recent_commits_aux (md5 : String → String) (repoName : String) (since : Int) :
    List RawCommit → List String → List ProcessedCommit
  | [], _ => []
  | c :: cs, seen =>
    if c.committedDate ≤ since then []
    else if should_skip_commit FILTER_CONFIG c then
      get_recent_commits_aux md5 repoName since cs seen
    else
      let data := mkProcessed repoName c
      let h := get_commit_hash md5 data
      if seen.contains h then get_recent_commits_aux md5 repoName since cs seen
      else data :: get_recent_commits_aux md5 repoName since cs (h :: seen)

/-- `get_recent_commits(repo_path, since_date)`: the history list models
`repo.iter_commits(all=True)` (newest first) and `repoName` the repository's
basename; `seen_hashes` starts empty on every call. -/
def get_recent_commits (md5 : String → String) (repoName : String)
    (history : List RawCommit) (since : Int) : List ProcessedCommit :=
  get_recent_commits_aux md5 repoName since history []

/-- `update_changelog` lines 436-443: the merged stream is the concatenation
of the two per-repository harvests. -/
def gather_commits (md5 : String → String) (mainRepo pkgRepo : String)
    (mainHistory pkgHistory : List RawCommit) (since : Int) : List ProcessedCommit :=
  get_recent_commits md5 mainRepo mainHistory since ++
  get_recent_commits md5 pkgRepo pkgHistory since

/-- Stable descending insertion for `sort_commits`. -/
def insertByDateDesc (c : ProcessedCommit) :
    List ProcessedCommit → List ProcessedCommit
  | [] => [c]
  | x :: xs => if x.date ≤ c.date then c :: x :: xs else x :: insertByDateDesc c xs

/-- `sort_commits` (source lines 377-378): Python `sorted(..., reverse=True)`
is a stable descending sort by date. -/
def sort_commits (commits : List ProcessedCommit) : List ProcessedCommit :=
  commits.foldr insertByDateDesc []

/-- `update_changelog` lines 453-458: group formatted lines by category key,
keys in first-appearance order, values in stream order (dict semantics). -/
def add_to_categorized (acc : List (String × List String)) (key v : String) :
    List (String × List String) :=
  if acc.any (fun p => p.1 == key) then
    acc.map (fun p => if p.1 == key then (p.1, p.2 ++ [v]) else p)
  else acc ++ [(key, [v])]

def build_categorized (commits : List ProcessedCommit) : List (String × List String) :=
  commits.foldl (fun acc c => add_to_categorized acc c.category c.formatted) []

/-! ### The assembler -/

/-- Stable ascending insertion by priority for
`sorted(CATEGORIES.items(), key=priority)`. -/
def insertByPriority (kc : String × Category) :
    List (String × Category) → List (String × Category)
  | [] => [kc]
  | x :: xs =>
    if kc.2.priority ≤ x.2.priority then kc :: x :: xs else x :: insertByPriority kc xs

/-- `sorted_categories` of `generate_changelog_entry` (source lines 383-386). -/
def sorted_categories : List (String × Category) :=
  CATEGORIES.foldr insertByPriority []

example : sorted_categories = CATEGORIES := by decide

/-- The section-emitting loop of `generate_changelog_entry` (source lines
388-397), returning the emitted lines and the `has_content` flag. -/
def entry_sections (categorized : List (String × List String)) :
    List (String × Category) → List String × Bool
  | [] => ([], false)
  | kc :: rest =>
    let commits := (((categorized.find? (fun p => p.1 == kc.1)).map
      (fun p => p.2)).getD [])
    let tail := entry_sections categorized rest
    if commits.isEmpty then tail
    else ((("### ") ++ kc.2.name ++ ("\n")) ::
            (commits.map (fun c => ("- ") ++ c)) ++ [""] ++ tail.1, true)

/-- Sum of per-category commit counts (source lines 404 and 492). -/
def total_count (categorized : List (String × List String)) : Nat :=
  (categorized.map (fun p => p.2.length)).sum

/-- `generate_changelog_entry` (source lines 380-408): header line, sections
in priority order, `None` when no category has content, optional stats line
(the `CHANGELOG_STATS` environment flag), closing `---` line.  The caller
joins these lines with `''.join`. -/
def generate_changelog_entry (categorized : List (String × List String))
    (release_date : String) (stats : Bool) : Option (List String) :=
  let secs := entry_sections categorized sorted_categories
  if !secs.2 then none
  else
    let base := (("\n## [") ++ release_date ++ ("]\n")) :: secs.1
    let withStats :=
      if stats then
        base ++ [(("\n**Total changes:** ") ++ toString (total_count categorized)
                  ++ (" commits\n"))]
      else base
    some (withStats ++ [("---\n")])

/-! ### The release-date banner -/

/-- The month names of `strftime('%B ...)`. -/
def monthName : Nat → String
  | 1 => "January" | 2 => "February" | 3 => "March" | 4 => "April"
  | 5 => "May" | 6 => "June" | 7 => "July" | 8 => "August"
  | 9 => "September" | 10 => "October" | 11 => "November" | 12 => "December"
  | _ => ""

/-- `strftime('%d')`: zero-padded day. -/
def pad2 (n : Nat) : String := if n < 10 then ("0") ++ toString n else toString n

/-- Split on a separator character (Python `str.split(sep)` for a one-character
separator; `""` splits to `[""]`). -/
def splitChar (sep : Char) : List Char → List (List Char)
  | [] => [[]]
  | c :: cs =>
    if c = sep then [] :: splitChar sep cs
    else
      match splitChar sep cs with
      | [] => [[c]]
      | l :: ls => (c :: l) :: ls

/-- Numeric value of a digit string. -/
def natOfDigits (ds : List Char) : Nat :=
  ds.foldl (fun n c => 10 * n + (c.toNat - 48)) 0

/-- `datetime.strptime(release_date, '%Y-%m-%d').strftime('%B %d, %Y')`
(source lines 411-412), modelled on the valid dates `strptime` accepts: month
name, zero-padded day, and the original four-digit year. -/
def format_human_date (release_date : String) : String :=
  match splitChar ('-') release_date.data with
  | [y, m, d] => monthName (natOfDigits m) ++ (" ") ++ pad2 (natOfDigits d)
                   ++ (", ") ++ (⟨y⟩ : String)
  | _ => ""

example : format_human_date ("2024-01-01") = "January 01, 2024" := by decide

/-- The literal head of the banner regex `📅 Release date: \*\*.*?\*\*`. -/
def bannerLit : List Char := ("📅 Release date: **").data

/-- Does the banner regex match inside one line?  A match is an occurrence of
the literal head followed (non-greedily, within the line) by `**`; if the
first head occurrence has no closing `**` after it on the line, no later one
has either, so testing the first occurrence suffices. -/
def line_has_banner (l : List Char) : Bool :=
  match findOcc bannerLit l with
  | none => false
  | some i => (findOcc (("**").data) (l.drop (i + bannerLit.length))).isSome

/-- One line of `re.sub(date_pattern, new_date_line, content)`: replace every
match (head occurrence up to the nearest following `**`) left to right,
continuing after each match; `fuel` bounds the recursion (each match consumes
at least one character). -/
def resub_line_aux (repl : List Char) : Nat → List Char → List Char
  | 0, l => l
  | Nat.succ fuel, l =>
    match findOcc bannerLit l with
    | none => l
    | some i =>
      let afterHead := l.drop (i + bannerLit.length)
      match findOcc (("**").data) afterHead with
      | none => l
      | some j =>
        (l.take i ++ repl) ++ resub_line_aux repl fuel (afterHead.drop (j + 2))

def resub_line (repl l : List Char) : List Char := resub_line_aux repl (l.length + 1) l

/-- The banner-insertion loop of `update_release_date` (source lines 420-426):
`lines.insert(i, new_date_line)` at the first index `i > 0` whose line strips
to empty — the banner takes the blank line's place — else append. -/
def insert_banner_aux (banner : List Char) : List (List Char) → List (List Char)
  | [] => [banner]
  | l :: ls =>
    if (pyStrip l).isEmpty then banner :: l :: ls else l :: insert_banner_aux banner ls

def insert_banner_lines (banner : List Char) : List (List Char) → List (List Char)
  | [] => [banner]
  | l0 :: rest => l0 :: insert_banner_aux banner rest

/-- `update_release_date(content, release_date)` (source lines 410-427).  The
banner pattern cannot match across `\n` (its literals contain none and `.`
excludes it), so the whole-string `re.search`/`re.sub` decompose per line. -/
def update_release_date (content release_date : String) : String :=
  let new_date_line := ("📅 Release date: **") ++ format_human_date release_date ++ ("**")
  let ls := linesOf content.data
  if ls.any line_has_banner then
    ⟨joinLines (ls.map (resub_line new_date_line.data))⟩
  else
    ⟨joinLines (insert_banner_lines new_date_line.data ls)⟩

example : update_release_date ("x\n📅 Release date: **May 02, 2023**\ny") ("2024-01-01")
    = "x\n📅 Release date: **January 01, 2024**\ny" := by decide
example : update_release_date ("a\n\nb") ("2024-01-01")
    = "a\n📅 Release date: **January 01, 2024**\n\nb" := by decide
example : update_release_date ("ab") ("2024-01-01")
    = "ab\n📅 Release date: **January 01, 2024**" := by decide

/-- The heading the idempotence check looks for (source line 467). -/
def release_heading (release_date : String) : String :=
  ("## [") ++ release_date ++ ("]")

/-- The document transformation of `update_changelog` (source lines 460-490):
`none` models the early `return` with no write (the heading for the release
date is already present); otherwise the rendered entry is spliced in — after
the first `---` if present, else after the first `\n\n`, else appended — the
release-date banner is updated, and the result is written. -/
def update_changelog_content (release_date : String)
    (categorized : List (String × List String)) (stats : Bool)
    (content : String) : Option String :=
  if containsSub content.data (release_heading release_date).data then none
  else
    let content2 :=
      match generate_changelog_entry categorized release_date stats with
      | some new_entry =>
        let joined := String.join new_entry
        match findOcc (("---").data) content.data with
        | some i =>
          (⟨((content.data.take i ++ ("---\n").data) ++ joined.data)
             ++ content.data.drop (i + 3)⟩ : String)
        | none =>
          match findOcc (("\n\n").data) content.data with
          | some i =>
            (⟨((content.data.take (i + 2) ++ ("---\n").data) ++ joined.data)
               ++ content.data.drop (i + 2)⟩ : String)
          | none => content ++ ("\n---\n") ++ joined
      | none => content
    some (update_release_date content2 release_date)

/-- The full `update_changelog` run on explicit inputs (source lines 429-490):
harvest both repositories, stop when nothing survived (`return`, no write),
else sort, group, and merge into the document. -/
def update_changelog_run (md5 : String → String) (release_date : String)
    (mainRepo pkgRepo : String) (mainHistory pkgHistory : List RawCommit)
    (since : Int) (stats : Bool) (content : String) : Option String :=
  let all_commits := gather_commits md5 mainRepo pkgRepo mainHistory pkgHistory since
  if all_commits.isEmpty then none
  else
    let sorted := sort_commits all_commits
    let categorized := build_categorized sorted
    update_changelog_content release_date categorized stats content

/-- The scenario-A raw commit. -/
def loginCrashCommit : RawCommit :=
  { hexsha := "abc123", message := "fix: resolve login crash",
    authorName := "sam", committerName := "sam", committedDate := 100,
    parentCount := 1, files := [] }

example : update_changelog_run (fun s => s) ("2024-01-01") ("BananaWRT") ("packages")
    [loginCrashCommit] [] 0 false ("# Changelog\n\n---\n")
    = some ("# Changelog\n📅 Release date: **January 01, 2024**\n\n---\n\n## [2024-01-01]\n### 🐛 Bug Fixes\n- 🐛 `fix`: resolve login crash by @sam---\n\n") := by decide

/-! ### Claim theorems -/

/-- ASCII lowercase and uppercase ranges are disjoint. -/
theorem isLower_not_isUpper {c : Char} (h : c.isLower = true) : c.isUpper = false := by
  simp only [Char.isLower, Char.isUpper, decide_eq_true_eq, Bool.and_eq_true] at h ⊢
  obtain ⟨h1, h2⟩ := h
  simp only [Bool.and_eq_false_iff, decide_eq_false_iff_not, not_le]
  right
  intro hle
  have h1n : (97 : Nat) ≤ c.val.toNat := h1
  have h2n : c.val.toNat ≤ (90 : Nat) := hle
  omega

/-- C7: for every non-empty first-line message whose first character is
lowercase, the capitalization step leaves the message unmodified when it
starts with an all-lowercase prefix followed by a colon, and otherwise
upper-cases exactly the first character, leaving the rest unchanged. -/
theorem C7_capitalization (c : Char) (rest : List Char) (h : c.isLower = true) :
    (lowerColonMatch (c :: rest) = true → cap_step (c :: rest) = c :: rest) ∧
    (lowerColonMatch (c :: rest) = false → cap_step (c :: rest) = c.toUpper :: rest) := by
  have hu : c.isUpper = false := isLower_not_isUpper h
  constructor
  · intro hm
    simp [cap_step, hm]
  · intro hm
    simp [cap_step, hm, hu]

/-- Witness for C7 at the messages `resolve x` (capitalized) and `fix: y`
(left unmodified). -/
theorem C7_witness :
    cap_step (("resolve x").data) = ("Resolve x").data ∧
    cap_step (("fix: y").data) = ("fix: y").data := by
  constructor
  · exact ((C7_capitalization ('r') (("esolve x").data) (by decide)).2 (by decide)).trans (by decide)
  · exact (C7_capitalization ('f') (("ix: y").data) (by decide)).1 (by decide)

/-- The scenario commit for the issue-annotation example. -/
def fixesLeakCommit : RawCommit :=
  { hexsha := "def456", message := "fixes #42 leak", authorName := "sam",
    committerName := "sam", committedDate := 100, parentCount := 1, files := [] }

/-- C8 counterexample: the code's issue-closing phrase regex is
`(?:fixes?|closes?|resolves?)\s*#(\d+)`, so `fix #7` (the claim's phrase
`fix` followed by `#7`) triggers no annotation; and the full formatted string
for `fixes #42 leak` ends with the author suffix, not with `(#42)`. -/
theorem C8_counterexample :
    annotate_issue (("fix #7").data) = ("fix #7").data ∧
    List.isSuffixOf (("(#42)").data)
      (formatL (("fixes #42 leak").data) (("sam").data)) = false := by
  constructor
  · decide
  · decide

/-- C8 as amended: a message matched by the issue regex (`fixe(s)`,
`close(s)`, `resolve(s)` — not bare `fix` — then optional whitespace and
`#<digits>`) keeps its text when `(#<digits>)` already occurs literally, and
otherwise gets ` (#<digits>)` appended at the end of the message part; the
message `fixes #42 leak` formats to `🛠️ Fixes #42 leak (#42) by @sam`, whose
message part ends in `(#42)` (the full line then appends the author). -/
theorem C8_issue_reference :
    (∀ (m n : List Char), issueSearch m = some n →
        containsSub m ((("(#").data ++ n) ++ (")").data) = true →
        annotate_issue m = m) ∧
    (∀ (m n : List Char), issueSearch m = some n →
        containsSub m ((("(#").data ++ n) ++ (")").data) = false →
        annotate_issue m = (m ++ ((" (#").data ++ n) ++ (")").data)) ∧
    format_commit_message fixesLeakCommit "sam" = "🛠️ Fixes #42 leak (#42) by @sam" := by
  refine ⟨?_, ?_, by decide⟩
  · intro m n h1 h2
    unfold annotate_issue
    rw [h1]
    show (if containsSub m ((("(#").data ++ n) ++ (")").data) = true then m
          else (m ++ ((" (#").data ++ n) ++ (")").data)) = m
    rw [h2]
    simp
  · intro m n h1 h2
    unfold annotate_issue
    rw [h1]
    show (if containsSub m ((("(#").data ++ n) ++ (")").data) = true then m
          else (m ++ ((" (#").data ++ n) ++ (")").data)) = (m ++ ((" (#").data ++ n) ++ (")").data)
    rw [h2]
    simp

/-- Witness for C8: a fresh annotation is appended, an existing one is kept. -/
theorem C8_witness :
    annotate_issue (("fixes #9 leak").data) = ("fixes #9 leak (#9)").data ∧
    annotate_issue (("fixes #9 (#9)").data) = ("fixes #9 (#9)").data := by
  constructor
  · exact (C8_issue_reference.2.1 (("fixes #9 leak").data) (("9").data)
      (by decide) (by decide)).trans (by decide)
  · exact C8_issue_reference.1 (("fixes #9 (#9)").data) (("9").data)
      (by decide) (by decide)

/-- C10: on a commit whose message first line is empty or whitespace-only the
formatter is total and returns the fallback line `🛠️  by @<author>` (empty
message part, hence two spaces). -/
theorem C10_degenerate_message (commit : RawCommit) (author : String)
    (h : pyStrip (firstLineOf commit.message.data) = []) :
    format_commit_message commit author = ("🛠️  by @") ++ author := by
  have hdata : (("🛠️  by @") ++ author).data = ("🛠️  by @").data ++ author.data :=
    String.data_append _ _
  apply String.ext
  show formatL commit.message.data author.data = (("🛠️  by @") ++ author).data
  rw [hdata]
  simp only [formatL, h]
  rfl

/-- Witness for C10 at a whitespace-only first line. -/
theorem C10_witness :
    format_commit_message
      { hexsha := "w1", message := "   \nsecond line", authorName := "sam",
        committerName := "sam", committedDate := 100, parentCount := 1, files := [] }
      "sam" = "🛠️  by @sam" := by
  exact (C10_degenerate_message _ "sam" (by decide)).trans (by decide)

/-- The score formula the claim states: at most +1 per changed file per
category, no matter how many of the category's file patterns the path
matches. -/
def category_score_claimed (commit_msg_lower : List Char) (files_changed : List String)
    (details : Category) : Nat :=
  2 * (details.patterns.countP (fun p => rSearch p commit_msg_lower))
    + (files_changed.countP (fun f =>
        details.file_patterns.any (fun p => rSearch p (toLowerL f.data))))

/-- C3 counterexample: the file `security/auth/x` matches both the
`security/` and `auth/` file patterns of `security_critical`, so the code's
score is 2 where the claim's formula gives 1. -/
theorem C3_counterexample :
    category_score (toLowerL ("zzz").data) [("security/auth/x")] security_critical = 2 ∧
    category_score_claimed (toLowerL ("zzz").data) [("security/auth/x")] security_critical = 1 ∧
    ¬ category_score (toLowerL ("zzz").data) [("security/auth/x")] security_critical
        = category_score_claimed (toLowerL ("zzz").data) [("security/auth/x")] security_critical := by
  refine ⟨by decide, by decide, by decide⟩

/-- C3 as amended: the classifier's score for a category is 2 times the
number of its message patterns matching the lower-cased message plus 1 for
every (changed file, file pattern) pair that matches — a path matching k of
the category's file patterns contributes k, not 1. -/
theorem C3_score_formula (commit_msg_lower : List Char) (files_changed : List String)
    (details : Category) :
    category_score commit_msg_lower files_changed details
      = 2 * (details.patterns.countP (fun p => rSearch p commit_msg_lower))
        + ((files_changed ×ˢ details.file_patterns).countP
            (fun fp => rSearch fp.2 (toLowerL fp.1.data))) := by
  unfold category_score
  congr 1
  induction files_changed with
  | nil => simp
  | cons f fs ih =>
    simp only [List.map_cons, List.sum_cons, List.product_cons, List.countP_append, ih,
      List.countP_map]
    have hc : List.countP ((fun fp => rSearch fp.2 (toLowerL fp.1.data)) ∘ fun b => (f, b))
        details.file_patterns
        = List.countP (fun p => rSearch p (toLowerL f.data)) details.file_patterns :=
      List.countP_congr (fun a _ => Iff.rfl)
    rw [hc]

/-! ### Classifier selection lemmas (for the tie-break and downgrade claims) -/

/-- The maximum score any category of `table` attains. -/
def max_score_over (table : List (String × Category)) (commit_msg_lower : List Char)
    (files : List String) : Nat :=
  (table.map (fun kc => category_score commit_msg_lower files kc.2)).foldr max 0

/-- The maximum category score of the script's table for a given input. -/
def max_category_score (commit_msg : String) (files_changed : List String) : Nat :=
  max_score_over CATEGORIES (toLowerL commit_msg.data) files_changed

theorem le_foldr_max {l : List Nat} {a : Nat} (h : a ∈ l) : a ≤ l.foldr max 0 := by
  induction l with
  | nil => cases h
  | cons x xs ih =>
    rcases List.mem_cons.1 h with rfl | hx
    · exact le_max_left _ _
    · exact le_trans (ih hx) (le_max_right _ _)

theorem foldr_max_mem {l : List Nat} (h : l.foldr max 0 ≠ 0) : l.foldr max 0 ∈ l := by
  induction l with
  | nil => exact absurd rfl h
  | cons x xs ih =>
    rcases le_total (xs.foldr max 0) x with hle | hle
    · rw [List.foldr_cons, max_eq_left hle] at h ⊢
      exact List.mem_cons_self _ _
    · rw [List.foldr_cons, max_eq_right hle] at h ⊢
      exact List.mem_cons_of_mem _ (ih h)

theorem mem_category_scores {lower : List Char} {files : List String}
    {table : List (String × Category)} {p : String × Nat}
    (h : p ∈ category_scores lower files table) :
    0 < p.2 ∧ ∃ c, (p.1, c) ∈ table ∧ p.2 = category_score lower files c := by
  unfold category_scores at h
  rw [List.mem_filterMap] at h
  obtain ⟨kc, hmem, heq⟩ := h
  by_cases h0 : 0 < category_score lower files kc.2
  · simp only [h0, if_pos] at heq
    cases heq
    exact ⟨h0, kc.2, by simpa using hmem, rfl⟩
  · simp [h0] at heq

theorem category_scores_mem_of {lower : List Char} {files : List String}
    {table : List (String × Category)} {k : String} {c : Category}
    (hmem : (k, c) ∈ table) (h0 : 0 < category_score lower files c) :
    (k, category_score lower files c) ∈ category_scores lower files table := by
  unfold category_scores
  rw [List.mem_filterMap]
  exact ⟨(k, c), hmem, by simp [h0]⟩

theorem scores_le_max {lower : List Char} {files : List String}
    {table : List (String × Category)} {p : String × Nat}
    (h : p ∈ category_scores lower files table) :
    p.2 ≤ max_score_over table lower files := by
  obtain ⟨-, c, hmem, heq⟩ := mem_category_scores h
  rw [heq]
  exact le_foldr_max (List.mem_map_of_mem (fun kc => category_score lower files kc.2) hmem)

theorem maxByScore_cons (b y : String × Nat) (l : List (String × Nat)) :
    maxByScore b (y :: l) = maxByScore (if b.2 < y.2 then y else b) l := rfl

theorem maxByScore_mem (x : String × Nat) (l : List (String × Nat)) :
    maxByScore x l ∈ x :: l := by
  induction l generalizing x with
  | nil => simp [maxByScore]
  | cons y ys ih =>
    rw [maxByScore_cons]
    by_cases hxy : x.2 < y.2
    · rw [if_pos hxy]
      rcases List.mem_cons.1 (ih y) with h | h
      · rw [h]; exact List.mem_cons_of_mem _ (List.mem_cons_self _ _)
      · exact List.mem_cons_of_mem _ (List.mem_cons_of_mem _ h)
    · rw [if_neg hxy]
      rcases List.mem_cons.1 (ih x) with h | h
      · rw [h]; exact List.mem_cons_self _ _
      · exact List.mem_cons_of_mem _ (List.mem_cons_of_mem _ h)

theorem maxByScore_stay {l : List (String × Nat)} :
    ∀ {b : String × Nat}, (∀ y ∈ l, y.2 ≤ b.2) → maxByScore b l = b := by
  induction l with
  | nil => intro b _; rfl
  | cons y ys ih =>
    intro b h
    rw [maxByScore_cons]
    have hy : y.2 ≤ b.2 := h y (List.mem_cons_self _ _)
    rw [if_neg (not_lt.2 hy)]
    exact ih (fun z hz => h z (List.mem_cons_of_mem _ hz))

theorem maxByScore_ge {l : List (String × Nat)} :
    ∀ {b : String × Nat}, ∀ z ∈ b :: l, z.2 ≤ (maxByScore b l).2 := by
  induction l with
  | nil =>
    intro b z hz
    rcases List.mem_cons.1 hz with rfl | h
    · exact le_refl _
    · cases h
  | cons y ys ih =>
    intro b z hz
    rw [maxByScore_cons]
    have hstep : b.2 ≤ (if b.2 < y.2 then y else b).2 ∧ y.2 ≤ (if b.2 < y.2 then y else b).2 := by
      by_cases hby : b.2 < y.2
      · rw [if_pos hby]; exact ⟨le_of_lt hby, le_refl _⟩
      · rw [if_neg hby]; exact ⟨le_refl _, not_lt.1 hby⟩
    rcases List.mem_cons.1 hz with rfl | hz1
    · exact le_trans hstep.1 (ih _ (List.mem_cons_self _ _))
    · rcases List.mem_cons.1 hz1 with rfl | hz2
      · exact le_trans hstep.2 (ih _ (List.mem_cons_self _ _))
      · exact ih _ (List.mem_cons_of_mem _ hz2)

theorem maxByScore_irrel {l : List (String × Nat)} :
    ∀ {b bb : String × Nat}, (∃ z ∈ l, b.2 < z.2 ∧ bb.2 < z.2) →
      maxByScore b l = maxByScore bb l := by
  induction l with
  | nil => rintro b bb ⟨z, hz, -⟩; cases hz
  | cons y ys ih =>
    rintro b bb ⟨z, hz, hb, hbb⟩
    rw [maxByScore_cons, maxByScore_cons]
    rcases List.mem_cons.1 hz with rfl | hz'
    · rw [if_pos hb, if_pos hbb]
    · rcases lt_or_le y.2 z.2 with hyz | hyz
      · have hb1 : (if b.2 < y.2 then y else b).2 < z.2 := by
          by_cases h1 : b.2 < y.2
          · rw [if_pos h1]; exact hyz
          · rw [if_neg h1]; exact hb
        have hb2 : (if bb.2 < y.2 then y else bb).2 < z.2 := by
          by_cases h2 : bb.2 < y.2
          · rw [if_pos h2]; exact hyz
          · rw [if_neg h2]; exact hbb
        exact ih ⟨z, hz', hb1, hb2⟩
      · have h1 : b.2 < y.2 := lt_of_lt_of_le hb hyz
        have h2 : bb.2 < y.2 := lt_of_lt_of_le hbb hyz
        rw [if_pos h1, if_pos h2]

/-- Core of the downgrade claim: when no category reaches a score of 2, the
classifier returns the catch-all key. -/
theorem categorize_other_of_max_lt_two {commit_msg : String} {files_changed : List String}
    (h : max_category_score commit_msg files_changed < 2) :
    categorize_commit commit_msg files_changed = "other" := by
  unfold categorize_commit categorize_with
  show (match category_scores (toLowerL commit_msg.data) files_changed CATEGORIES with
        | [] => "other"
        | x :: xs =>
          if (decide ((maxByScore x xs).2 < 2) && CATEGORIES.any fun kc => kc.1 == "other") = true
          then "other" else (maxByScore x xs).1) = "other"
  cases hcs : category_scores (toLowerL commit_msg.data) files_changed CATEGORIES with
  | nil => rfl
  | cons x xs =>
    have hb : maxByScore x xs ∈ category_scores (toLowerL commit_msg.data) files_changed CATEGORIES := by
      rw [hcs]; exact maxByScore_mem x xs
    have hlt : (maxByScore x xs).2 < 2 := lt_of_le_of_lt (scores_le_max hb) h
    have hother : (CATEGORIES.any fun kc => kc.1 == "other") = true := by decide
    simp [hlt, hother]

/-- C6: if the maximum category score is positive but below 2, the classifier
returns the catch-all category; if no category scores above 0, it does too. -/
theorem C6_downgrade (commit_msg : String) (files_changed : List String) :
    (0 < max_category_score commit_msg files_changed →
      max_category_score commit_msg files_changed < 2 →
      categorize_commit commit_msg files_changed = "other") ∧
    (max_category_score commit_msg files_changed = 0 →
      categorize_commit commit_msg files_changed = "other") := by
  constructor
  · intro _ h2
    exact categorize_other_of_max_lt_two h2
  · intro h0
    exact categorize_other_of_max_lt_two (by omega)

/-- Witness for C6: a single file-pattern hit (score 1) and a no-hit input. -/
theorem C6_witness :
    categorize_commit ("zzz") [("target/x")] = "other" ∧
    categorize_commit ("zzz") [] = "other" :=
  ⟨(C6_downgrade ("zzz") [("target/x")]).1 (by decide) (by decide),
   (C6_downgrade ("zzz") []).2 (by decide)⟩

theorem category_scores_cons (lower : List Char) (fs : List String) (k₀ : String)
    (c₀ : Category) (T : List (String × Category)) :
    category_scores lower fs ((k₀, c₀) :: T)
      = if 0 < category_score lower fs c₀
        then (k₀, category_score lower fs c₀) :: category_scores lower fs T
        else category_scores lower fs T := by
  unfold category_scores
  rw [List.filterMap_cons]
  by_cases h : 0 < category_score lower fs c₀ <;> simp [h]

theorem find?_cons_pos {α : Type _} (p : α → Bool) (a : α) (l : List α) (h : p a = true) :
    (a :: l).find? p = some a := by
  simp [List.find?_cons, h]

theorem find?_cons_neg {α : Type _} (p : α → Bool) (a : α) (l : List α) (h : p a = false) :
    (a :: l).find? p = l.find? p := by
  simp [List.find?_cons, h]

theorem exists_achiever {table : List (String × Category)} {lower : List Char}
    {fs : List String} (h : 0 < max_score_over table lower fs) :
    ∃ kc ∈ table, category_score lower fs kc.2 = max_score_over table lower fs := by
  have h' : (table.map fun kc => category_score lower fs kc.2).foldr max 0 ≠ 0 := by
    unfold max_score_over at h
    omega
  have hmem := foldr_max_mem h'
  rw [List.mem_map] at hmem
  obtain ⟨kc, hm, heq⟩ := hmem
  refine ⟨kc, hm, ?_⟩
  rw [heq]
  rfl

/-- `find?` transport from the table to the positive-score list: for a
positive target score, dropping zero-score categories does not change the
first category attaining it. -/
theorem cs_find_of_table_find {lower : List Char} {fs : List String} {M : Nat}
    (hM : 0 < M) :
    ∀ (T : List (String × Category)) (k : String) (c : Category),
      T.find? (fun kc => category_score lower fs kc.2 == M) = some (k, c) →
      (category_scores lower fs T).find? (fun y => y.2 == M) = some (k, M) := by
  intro T
  induction T with
  | nil => intro k c h; simp at h
  | cons kc₀ T ih =>
    intro k c h
    obtain ⟨k₀, c₀⟩ := kc₀
    rw [category_scores_cons]
    by_cases hs : (category_score lower fs c₀ == M) = true
    · rw [find?_cons_pos (fun kc => category_score lower fs kc.2 == M) (k₀, c₀) T hs] at h
      have hkc : k₀ = k ∧ c₀ = c := by
        have := Option.some.inj h
        exact ⟨congrArg Prod.fst this, congrArg Prod.snd this⟩
      have hsM : category_score lower fs c₀ = M := by simpa using hs
      rw [if_pos (by omega)]
      rw [find?_cons_pos (fun y => y.2 == M) (k₀, category_score lower fs c₀)
        (category_scores lower fs T) (by simpa using hs)]
      rw [hkc.1, hsM]
    · have hs' : (category_score lower fs c₀ == M) = false := by
        simpa using hs
      rw [find?_cons_neg (fun kc => category_score lower fs kc.2 == M) (k₀, c₀) T hs'] at h
      by_cases h0 : 0 < category_score lower fs c₀
      · rw [if_pos h0]
        rw [find?_cons_neg (fun y => y.2 == M) (k₀, category_score lower fs c₀)
          (category_scores lower fs T) (by simpa using hs')]
        exact ih k c h
      · rw [if_neg h0]
        exact ih k c h

/-- Python `max` with a key returns the first element attaining the maximal
key: `maxByScore b l` is the first element of `b :: l` whose score equals the
fold's score. -/
theorem maxByScore_find (x : String × Nat) (xs : List (String × Nat)) :
    (x :: xs).find? (fun y => y.2 == (maxByScore x xs).2) = some (maxByScore x xs) := by
  induction xs generalizing x with
  | nil =>
    rw [find?_cons_pos (fun y => y.2 == (maxByScore x []).2) x [] (by simp [maxByScore])]
    rfl
  | cons y ys ih =>
    rw [maxByScore_cons]
    by_cases hxy : x.2 < y.2
    · rw [if_pos hxy]
      have hgt : x.2 < (maxByScore y ys).2 :=
        lt_of_lt_of_le hxy (maxByScore_ge y (List.mem_cons_self _ _))
      rw [find?_cons_neg (fun z => z.2 == (maxByScore y ys).2) x (y :: ys) (by simp; omega)]
      exact ih y
    · rw [if_neg hxy]
      have hih := ih x
      by_cases hx : (x.2 == (maxByScore x ys).2) = true
      · have hxm : x = maxByScore x ys := by
          rw [find?_cons_pos (fun z => z.2 == (maxByScore x ys).2) x ys hx] at hih
          exact Option.some.inj hih
        rw [find?_cons_pos (fun z => z.2 == (maxByScore x ys).2) x (y :: ys) hx]
        rw [← hxm]
      · have hx' : (x.2 == (maxByScore x ys).2) = false := by simpa using hx
        rw [find?_cons_neg (fun z => z.2 == (maxByScore x ys).2) x ys hx'] at hih
        rw [find?_cons_neg (fun z => z.2 == (maxByScore x ys).2) x (y :: ys) hx']
        have hxlt : x.2 < (maxByScore x ys).2 := by
          have hle : x.2 ≤ (maxByScore x ys).2 :=
            maxByScore_ge x (List.mem_cons_self _ _)
          have hne : ¬ x.2 = (maxByScore x ys).2 := by simpa using hx
          omega
        have hy : (y.2 == (maxByScore x ys).2) = false := by
          simp
          omega
        rw [find?_cons_neg (fun z => z.2 == (maxByScore x ys).2) y ys hy]
        exact hih

/-- C5 as amended: whenever the maximum category score is at least 2, the
classifier returns the key of the first category in the table's declared
iteration order attaining that maximum (the `priority` field plays no role);
for a tied maximum of 1 the downgrade rule returns the catch-all instead. -/
theorem C5_tiebreak (commit_msg : String) (files_changed : List String)
    (k : String) (c : Category)
    (h2 : 2 ≤ max_category_score commit_msg files_changed)
    (hfind : CATEGORIES.find? (fun kc =>
        category_score (toLowerL commit_msg.data) files_changed kc.2
          == max_category_score commit_msg files_changed) = some (k, c)) :
    categorize_commit commit_msg files_changed = k := by
  have hM0 : 0 < max_category_score commit_msg files_changed := by omega
  have hcsfind := cs_find_of_table_find hM0 CATEGORIES k c hfind
  have hmem : (k, max_category_score commit_msg files_changed)
      ∈ category_scores (toLowerL commit_msg.data) files_changed CATEGORIES :=
    List.mem_of_find?_eq_some hcsfind
  unfold categorize_commit categorize_with
  show (match category_scores (toLowerL commit_msg.data) files_changed CATEGORIES with
        | [] => "other"
        | x :: xs =>
          if (decide ((maxByScore x xs).2 < 2) && CATEGORIES.any fun kc => kc.1 == "other") = true
          then "other" else (maxByScore x xs).1) = k
  cases hcs : category_scores (toLowerL commit_msg.data) files_changed CATEGORIES with
  | nil => rw [hcs] at hmem; cases hmem
  | cons x xs =>
    rw [hcs] at hmem hcsfind
    have hgeM : max_category_score commit_msg files_changed ≤ (maxByScore x xs).2 :=
      maxByScore_ge (k, max_category_score commit_msg files_changed) hmem
    have hbmem : maxByScore x xs
        ∈ category_scores (toLowerL commit_msg.data) files_changed CATEGORIES := by
      rw [hcs]; exact maxByScore_mem x xs
    have hbeq : (maxByScore x xs).2 = max_category_score commit_msg files_changed :=
      le_antisymm (scores_le_max hbmem) hgeM
    have hfind2 := maxByScore_find x xs
    rw [hbeq] at hfind2
    have hbest : maxByScore x xs = (k, max_category_score commit_msg files_changed) := by
      rw [hfind2] at hcsfind
      exact Option.some.inj hcsfind
    have hc1 : ((maxByScore x xs).2 < 2) = False := by
      rw [hbeq]; simp; omega
    simp only [hc1, decide_False, Bool.false_and, Bool.false_eq_true, if_neg, ite_false]
    rw [hbest]

/-- C5 counterexample: on message `zzz` with changed file `target/feeds/x`,
`bananawrt_core` and `packages` tie at the maximum positive score 1, yet the
classifier returns the catch-all `other` (the downgrade rule overrides the
tie-break), not the earlier-declared `bananawrt_core`. -/
theorem C5_counterexample :
    category_score (toLowerL ("zzz").data) [("target/feeds/x")] bananawrt_core = 1 ∧
    category_score (toLowerL ("zzz").data) [("target/feeds/x")] packages = 1 ∧
    max_category_score ("zzz") [("target/feeds/x")] = 1 ∧
    categorize_commit ("zzz") [("target/feeds/x")] = "other" ∧
    ¬ categorize_commit ("zzz") [("target/feeds/x")] = "bananawrt_core" := by
  refine ⟨by decide, by decide, by decide, by decide, by decide⟩

/-- Witness for C5: `security update logic` scores 2 for both
`security_critical` and `improvements`; the earlier table entry wins. -/
theorem C5_witness :
    2 ≤ max_category_score ("security update logic") [] ∧
    categorize_commit ("security update logic") [] = "security_critical" :=
  ⟨by decide,
   C5_tiebreak ("security update logic") [] ("security_critical") security_critical
     (by decide) (by decide)⟩

/-! ### Deduplication scope -/

/-- Invariant of the harvest loop: the kept commits have pairwise-distinct
fingerprints, all of them outside the incoming seen-set. -/
theorem get_recent_commits_aux_inv (md5 : String → String) (repoName : String)
    (since : Int) :
    ∀ (cs : List RawCommit) (seen : List String),
      ((get_recent_commits_aux md5 repoName since cs seen).map
        (get_commit_hash md5)).Nodup ∧
      ∀ h ∈ (get_recent_commits_aux md5 repoName since cs seen).map
        (get_commit_hash md5), h ∉ seen := by
  intro cs
  induction cs with
  | nil =>
    intro seen
    refine ⟨?_, ?_⟩ <;> simp [get_recent_commits_aux]
  | cons c cs ih =>
    intro seen
    by_cases hd : c.committedDate ≤ since
    · refine ⟨?_, ?_⟩ <;> simp [get_recent_commits_aux, hd]
    · by_cases hs : should_skip_commit FILTER_CONFIG c = true
      · have he : get_recent_commits_aux md5 repoName since (c :: cs) seen
            = get_recent_commits_aux md5 repoName since cs seen := by
          simp [get_recent_commits_aux, hd, hs]
        rw [he]
        exact ih seen
      · by_cases hseen : seen.contains (get_commit_hash md5 (mkProcessed repoName c)) = true
        · have hseenm : get_commit_hash md5 (mkProcessed repoName c) ∈ seen := by
            simpa using hseen
          have he : get_recent_commits_aux md5 repoName since (c :: cs) seen
              = get_recent_commits_aux md5 repoName since cs seen := by
            simp [get_recent_commits_aux, hd, hs, hseenm]
          rw [he]
          exact ih seen
        · have hseenm : get_commit_hash md5 (mkProcessed repoName c) ∉ seen := by
            simpa using hseen
          have he : get_recent_commits_aux md5 repoName since (c :: cs) seen
              = mkProcessed repoName c :: get_recent_commits_aux md5 repoName since cs
                  (get_commit_hash md5 (mkProcessed repoName c) :: seen) := by
            simp [get_recent_commits_aux, hd, hs, hseenm]
          rw [he]
          have ihh := ih (get_commit_hash md5 (mkProcessed repoName c) :: seen)
          have hnotmem : get_commit_hash md5 (mkProcessed repoName c)
              ∉ (get_recent_commits_aux md5 repoName since cs
                  (get_commit_hash md5 (mkProcessed repoName c) :: seen)).map
                  (get_commit_hash md5) := by
            intro hmem
            exact (ihh.2 _ hmem) (List.mem_cons_self _ _)
          refine ⟨?_, ?_⟩
          · rw [List.map_cons]
            exact List.Nodup.cons hnotmem ihh.1
          · intro x hx
            rw [List.map_cons, List.mem_cons] at hx
            rcases hx with rfl | hx
            · exact hseenm
            · intro hxs
              exact (ihh.2 x hx) (List.mem_cons_of_mem _ hxs)

/-- A commit present identically in both repositories. -/
def dupCommit : RawCommit :=
  { hexsha := "abc", message := "zzz", authorName := "sam", committerName := "sam",
    committedDate := 100, parentCount := 1, files := [] }

/-- C2 counterexample: the same commit (same identity hash, author,
timestamp) harvested from both repositories is kept twice in the merged
stream — `seen_hashes` is local to each `get_recent_commits` call, so
deduplication never crosses repositories. -/
theorem C2_counterexample :
    (gather_commits (fun s => s) ("BananaWRT") ("packages") [dupCommit] [dupCommit] 0).map
        (fun p => (p.sha, p.author, p.date, p.repo))
      = [("abc", "sam", (100 : Int), "BananaWRT"), ("abc", "sam", (100 : Int), "packages")] := by
  decide

/-- C2 as amended: the fingerprint is the (abstract) `md5` hash of the
`sha:author:date` triple joined with `:`; within one repository's harvest a
commit whose fingerprint has already been seen is dropped (kept fingerprints
are pairwise distinct for every hash function), but the per-repository
`seen_hashes` set is fresh on each call, so identical commits arriving from
two different repositories are both kept in the merged stream. -/
theorem C2_dedup_scope :
    (∀ (md5 : String → String) (repoName : String) (history : List RawCommit) (since : Int),
      ((get_recent_commits md5 repoName history since).map (get_commit_hash md5)).Nodup) ∧
    (∀ (c : ProcessedCommit), unique_string c = c.sha ++ ":" ++ c.author ++ ":" ++ toString c.date) ∧
    (gather_commits (fun s => s) ("BananaWRT") ("packages") [dupCommit] [dupCommit] 0).length = 2 := by
  refine ⟨?_, fun c => rfl, by decide⟩
  intro md5 repoName history since
  exact (get_recent_commits_aux_inv md5 repoName since history []).1

/-! ### End-to-end scenario A -/

/-- The document the scenario-A run actually produces. -/
def scenarioAOutput : String :=
  "# Changelog\n📅 Release date: **January 01, 2024**\n\n---\n\n## [2024-01-01]\n### 🐛 Bug Fixes\n- 🐛 `fix`: resolve login crash by @sam---\n\n"

/-- C4 counterexample: the scenario-A run does not produce the bullet the
claim states.  The formatter never strips the `fix:` prefix — it extracts
`fix` as a package name and wraps it in backticks, and the `fix:` prefix
suppresses capitalization — so the bullet reads `🐛 \`fix\`: resolve login
crash by @sam`, and the claimed text `🐛 Resolve login crash by @sam` occurs
nowhere in the output. -/
theorem C4_counterexample :
    update_changelog_run (fun s => s) ("2024-01-01") ("BananaWRT") ("packages")
        [loginCrashCommit] [] 0 false ("# Changelog\n\n---\n")
      = some scenarioAOutput ∧
    containsSub scenarioAOutput.data (("🐛 Resolve login crash by @sam").data) = false := by
  refine ⟨by decide, by decide⟩

/-- C4 as amended: on the document `# Changelog\n\n---\n` with the single
kept commit `fix: resolve login crash` (no changed files, author `sam`,
release label `2024-01-01`) the pipeline produces exactly `scenarioAOutput`:
a new `## [2024-01-01]` section with a `🐛 Bug Fixes` subsection whose bullet
is `- 🐛 \`fix\`: resolve login crash by @sam` (the closing `---` of the
generated entry is joined onto the bullet line, since the entry lines are
concatenated without separators), inserted after the existing `---` marker,
plus the release-date banner inserted at the first blank line. -/
theorem C4_scenarioA :
    update_changelog_run (fun s => s) ("2024-01-01") ("BananaWRT") ("packages")
        [loginCrashCommit] [] 0 false ("# Changelog\n\n---\n")
      = some scenarioAOutput ∧
    containsSub scenarioAOutput.data (("## [2024-01-01]").data) = true ∧
    containsSub scenarioAOutput.data (("### 🐛 Bug Fixes\n- 🐛 `fix`: resolve login crash by @sam").data) = true ∧
    format_commit_message loginCrashCommit (resolve_author loginCrashCommit)
      = "🐛 `fix`: resolve login crash by @sam" := by
  refine ⟨by decide, by decide, by decide, by decide⟩

/-! ### Lines round-trip and banner insertion -/

theorem linesOf_ne_nil (s : List Char) : linesOf s ≠ [] := by
  cases s with
  | nil => simp [linesOf]
  | cons c cs =>
    unfold linesOf
    by_cases h : c = ('\n')
    · simp [h]
    · simp only [h, if_neg, ite_false]
      cases linesOf cs <;> simp

theorem joinLines_cons₂ (x y : List Char) (ys : List (List Char)) :
    joinLines (x :: y :: ys) = x ++ ('\n') :: joinLines (y :: ys) := rfl

theorem joinLines_linesOf (s : List Char) : joinLines (linesOf s) = s := by
  induction s with
  | nil => rfl
  | cons c cs ih =>
    unfold linesOf
    by_cases h : c = ('\n')
    · subst h
      simp only [if_pos]
      cases hR : linesOf cs with
      | nil => exact absurd hR (linesOf_ne_nil cs)
      | cons r rs =>
        rw [joinLines_cons₂, ← hR, ih]
        rfl
    · simp only [h, if_neg, ite_false]
      cases hR : linesOf cs with
      | nil => exact absurd hR (linesOf_ne_nil cs)
      | cons r rs =>
        cases rs with
        | nil =>
          show c :: r = c :: cs
          rw [← ih, hR]
          rfl
        | cons m ms =>
          rw [joinLines_cons₂]
          show (c :: r) ++ ('\n') :: joinLines (m :: ms) = c :: cs
          rw [← ih, hR, joinLines_cons₂]
          rfl

theorem joinLines_append_singleton (b : List Char) :
    ∀ (ls : List (List Char)), ls ≠ [] →
      joinLines (ls ++ [b]) = joinLines ls ++ ('\n') :: b := by
  intro ls
  induction ls with
  | nil => intro h; exact absurd rfl h
  | cons x xs ih =>
    intro _
    cases xs with
    | nil => rfl
    | cons y ys =>
      have h1 : (x :: y :: ys) ++ [b] = x :: y :: (ys ++ [b]) := by simp
      rw [h1, joinLines_cons₂]
      have h2 : y :: (ys ++ [b]) = (y :: ys) ++ [b] := rfl
      rw [h2, ih (by simp), joinLines_cons₂]
      simp

theorem insert_banner_aux_no_blank (banner : List Char) :
    ∀ (ls : List (List Char)), (∀ l ∈ ls, (pyStrip l).isEmpty = false) →
      insert_banner_aux banner ls = ls ++ [banner] := by
  intro ls
  induction ls with
  | nil => intro _; rfl
  | cons x xs ih =>
    intro h
    unfold insert_banner_aux
    rw [if_neg (by simp [h x (List.mem_cons_self _ _)])]
    rw [ih (fun l hl => h l (List.mem_cons_of_mem _ hl))]
    rfl

theorem insert_banner_aux_blank (banner l : List Char) (post : List (List Char)) :
    ∀ (pre : List (List Char)), (∀ x ∈ pre, (pyStrip x).isEmpty = false) →
      (pyStrip l).isEmpty = true →
      insert_banner_aux banner (pre ++ l :: post) = pre ++ banner :: l :: post := by
  intro pre
  induction pre with
  | nil =>
    intro _ hblank
    show insert_banner_aux banner (l :: post) = banner :: l :: post
    unfold insert_banner_aux
    rw [if_pos hblank]
  | cons x xs ih =>
    intro hpre hblank
    show insert_banner_aux banner (x :: (xs ++ l :: post)) = x :: (xs ++ banner :: l :: post)
    unfold insert_banner_aux
    rw [if_neg (by simp [hpre x (List.mem_cons_self _ _)])]
    rw [ih (fun y hy => hpre y (List.mem_cons_of_mem _ hy)) hblank]

/-- A line with no banner match is left unchanged by the substitution. -/
theorem resub_line_id (b l : List Char) (h : line_has_banner l = false) :
    resub_line b l = l := by
  unfold line_has_banner at h
  cases hf : findOcc bannerLit l with
  | none => simp [resub_line, resub_line_aux, hf]
  | some i =>
    rw [hf] at h
    cases hg : findOcc (("**").data) (l.drop (i + bannerLit.length)) with
    | none => simp [resub_line, resub_line_aux, hf, hg]
    | some j =>
      have h' : (findOcc (("**").data) (l.drop (i + bannerLit.length))).isSome = false := h
      rw [hg] at h'
      simp at h' 

/-- C9 as amended: if some line of the document matches the release-date
banner pattern, every match on every line is rewritten to the new banner text
(lines without a match are untouched); otherwise the new banner line is
inserted at the position of the first blank line after the first line — the
banner takes the blank line's place, pushing the blank line down — or, if no
such blank line exists, appended at the end after a newline. -/
theorem C9_release_date_banner (content release_date : String) :
    ((linesOf content.data).any line_has_banner = true →
      update_release_date content release_date
        = ⟨joinLines ((linesOf content.data).map
            (resub_line (("📅 Release date: **") ++ format_human_date release_date
              ++ ("**")).data))⟩) ∧
    (∀ l : List Char, line_has_banner l = false →
      resub_line (("📅 Release date: **") ++ format_human_date release_date
        ++ ("**")).data l = l) ∧
    ((linesOf content.data).any line_has_banner = false →
      ∀ (l0 l : List Char) (pre post : List (List Char)),
        linesOf content.data = l0 :: (pre ++ l :: post) →
        (∀ x ∈ pre, (pyStrip x).isEmpty = false) →
        (pyStrip l).isEmpty = true →
        update_release_date content release_date
          = ⟨joinLines (l0 :: (pre ++ (("📅 Release date: **")
              ++ format_human_date release_date ++ ("**")).data :: l :: post))⟩) ∧
    ((linesOf content.data).any line_has_banner = false →
      (∀ x ∈ (linesOf content.data).tail, (pyStrip x).isEmpty = false) →
      update_release_date content release_date
        = content ++ ("\n") ++ (("📅 Release date: **")
            ++ format_human_date release_date ++ ("**"))) := by
  refine ⟨?_, ?_, ?_, ?_⟩
  · intro h
    unfold update_release_date
    rw [if_pos h]
  · intro l h
    exact resub_line_id _ l h
  · intro h l0 l pre post hls hpre hblank
    unfold update_release_date
    rw [if_neg (by simp [h])]
    rw [hls]
    rw [show insert_banner_lines (("📅 Release date: **" ++ format_human_date release_date
          ++ "**").data) (l0 :: (pre ++ l :: post))
        = l0 :: insert_banner_aux (("📅 Release date: **" ++ format_human_date release_date
          ++ "**").data) (pre ++ l :: post) from rfl]
    rw [insert_banner_aux_blank _ _ _ _ hpre hblank]
  · intro h hnb
    unfold update_release_date
    rw [if_neg (by simp [h])]
    cases hls : linesOf content.data with
    | nil => exact absurd hls (linesOf_ne_nil _)
    | cons l0 rest =>
      rw [hls] at hnb
      simp only [List.tail_cons] at hnb
      rw [show insert_banner_lines (("📅 Release date: **" ++ format_human_date release_date
            ++ "**").data) (l0 :: rest)
          = l0 :: insert_banner_aux (("📅 Release date: **" ++ format_human_date release_date
            ++ "**").data) rest from rfl]
      rw [insert_banner_aux_no_blank _ rest hnb]
      have h1 : l0 :: (rest ++ [(("📅 Release date: **")
          ++ format_human_date release_date ++ ("**")).data])
          = (l0 :: rest) ++ [(("📅 Release date: **")
          ++ format_human_date release_date ++ ("**")).data] := rfl
      rw [h1, joinLines_append_singleton _ _ (by simp), ← hls, joinLines_linesOf]
      apply String.ext
      simp [String.data_append]

/-- C9 counterexample: on `a\n\nb` (no banner line, blank line at index 1)
the new banner is inserted at the blank line's position — before it — not
after the first blank line as the claim states. -/
theorem C9_counterexample :
    update_release_date ("a\n\nb") ("2024-01-01")
      = "a\n📅 Release date: **January 01, 2024**\n\nb" ∧
    ¬ update_release_date ("a\n\nb") ("2024-01-01")
      = "a\n\n📅 Release date: **January 01, 2024**\nb" := by
  refine ⟨by decide, by decide⟩

/-- Witness for C9: the rewrite path, the insert-before-blank path, and the
append path at concrete documents. -/
theorem C9_witness :
    update_release_date ("x\n📅 Release date: **May 02, 2023**\ny") ("2024-01-01")
      = "x\n📅 Release date: **January 01, 2024**\ny" ∧
    update_release_date ("a\nkeep\n\nb") ("2024-01-01")
      = "a\nkeep\n📅 Release date: **January 01, 2024**\n\nb" ∧
    update_release_date ("ab") ("2024-01-01")
      = "ab\n📅 Release date: **January 01, 2024**" := by
  refine ⟨?_, ?_, ?_⟩
  · exact ((C9_release_date_banner ("x\n📅 Release date: **May 02, 2023**\ny")
      ("2024-01-01")).1 (by decide)).trans (by decide)
  · exact ((C9_release_date_banner ("a\nkeep\n\nb") ("2024-01-01")).2.2.1 (by decide)
      (("a").data) ([]) [("keep").data] [("b").data] (by decide) (by decide)
      (by decide)).trans (by decide)
  · exact ((C9_release_date_banner ("ab") ("2024-01-01")).2.2.2 (by decide)
      (by decide)).trans (by decide)

/-! ### Idempotence infrastructure -/

theorem string_foldl_append_data (l : List String) :
    ∀ (a : String), (l.foldl (fun r s => r ++ s) a).data
      = a.data ++ (l.map String.data).join := by
  induction l with
  | nil => intro a; simp
  | cons x xs ih =>
    intro a
    show (xs.foldl (fun r s => r ++ s) (a ++ x)).data = _
    rw [ih (a ++ x)]
    simp [String.data_append]

theorem string_join_data (l : List String) :
    (String.join l).data = (l.map String.data).join := by
  show (l.foldl (fun r s => r ++ s) "").data = _
  rw [string_foldl_append_data]
  rfl

theorem containsSub_of_infix {m s : List Char} (h : m <:+: s) :
    containsSub s m = true := by
  obtain ⟨x, y, hxy⟩ := h
  have hex : ((List.range (s.length + 1)).find?
      (fun i => m.isPrefixOf (s.drop i))).isSome := by
    rw [List.find?_isSome]
    refine ⟨x.length, ?_, ?_⟩
    · rw [List.mem_range]
      have hlen : x.length ≤ s.length := by
        rw [← hxy]
        simp
      omega
    · have hs : s = x ++ (m ++ y) := by rw [← hxy]; simp
      rw [hs, List.drop_left, List.isPrefixOf_iff_prefix]
      exact List.prefix_append m y
  unfold containsSub findOcc
  exact hex

theorem linesOf_cons (c : Char) (cs : List Char) :
    linesOf (c :: cs)
      = if c = ('\n') then [] :: linesOf cs
        else match linesOf cs with | [] => [[c]] | l :: ls => (c :: l) :: ls := rfl

theorem linesOf_no_newline_append {m : List Char} (hm : ('\n') ∉ m) :
    ∀ (b : List Char), linesOf (m ++ ('\n') :: b) = m :: linesOf b := by
  induction m with
  | nil =>
    intro b
    show linesOf (('\n') :: b) = [] :: linesOf b
    rw [linesOf_cons, if_pos rfl]
  | cons c m ih =>
    intro b
    have hc : c ≠ ('\n') := fun h => hm (h ▸ List.mem_cons_self _ _)
    have hm' : ('\n') ∉ m := fun h => hm (List.mem_cons_of_mem _ h)
    show linesOf (c :: (m ++ ('\n') :: b)) = (c :: m) :: linesOf b
    rw [linesOf_cons, if_neg hc, ih hm' b]

theorem mem_tail_linesOf {m : List Char} (hm : ('\n') ∉ m) :
    ∀ (a b : List Char), m ∈ (linesOf (a ++ ('\n') :: (m ++ ('\n') :: b))).tail := by
  intro a
  induction a with
  | nil =>
    intro b
    show m ∈ (linesOf (('\n') :: (m ++ ('\n') :: b))).tail
    rw [linesOf_cons, if_pos rfl]
    rw [linesOf_no_newline_append hm b]
    exact List.mem_cons_self _ _
  | cons c a ih =>
    intro b
    show m ∈ (linesOf (c :: (a ++ ('\n') :: (m ++ ('\n') :: b)))).tail
    rw [linesOf_cons]
    by_cases hc : c = ('\n')
    · rw [if_pos hc]
      have h := ih b
      cases hL : linesOf (a ++ ('\n') :: (m ++ ('\n') :: b)) with
      | nil => exact absurd hL (linesOf_ne_nil _)
      | cons l ls =>
        rw [hL] at h
        simp only [List.tail_cons] at h ⊢
        exact List.mem_cons_of_mem _ h
    · rw [if_neg hc]
      have h := ih b
      cases hL : linesOf (a ++ ('\n') :: (m ++ ('\n') :: b)) with
      | nil => exact absurd hL (linesOf_ne_nil _)
      | cons l ls =>
        rw [hL] at h
        show m ∈ ((c :: l) :: ls).tail
        simp only [List.tail_cons] at h ⊢
        exact h

theorem mem_of_mem_tail' {α : Type _} {x : α} {l : List α} (h : x ∈ l.tail) : x ∈ l := by
  cases l with
  | nil => cases h
  | cons y ys => exact List.mem_cons_of_mem _ h

theorem mem_joinLines_infix {m : List Char} :
    ∀ {ls : List (List Char)}, m ∈ ls → m <:+: joinLines ls := by
  intro ls
  induction ls with
  | nil => intro h; cases h
  | cons l ls ih =>
    intro h
    rcases List.mem_cons.1 h with rfl | h'
    · cases ls with
      | nil => exact List.infix_refl m
      | cons y ys =>
        rw [joinLines_cons₂]
        exact (List.prefix_append m (('\n') :: joinLines (y :: ys))).isInfix
    · cases ls with
      | nil => cases h'
      | cons y ys =>
        rw [joinLines_cons₂]
        have hsuf : joinLines (y :: ys) <:+ l ++ ('\n') :: joinLines (y :: ys) := by
          have : l ++ ('\n') :: joinLines (y :: ys)
              = (l ++ [('\n')]) ++ joinLines (y :: ys) := by simp
          rw [this]
          exact List.suffix_append _ _
        exact (ih h').trans hsuf.isInfix

theorem mem_insert_banner_aux {x : List Char} (b : List Char) :
    ∀ {ls : List (List Char)}, x ∈ ls → x ∈ insert_banner_aux b ls := by
  intro ls
  induction ls with
  | nil => intro h; cases h
  | cons l ls ih =>
    intro h
    unfold insert_banner_aux
    by_cases hb : (pyStrip l).isEmpty = true
    · rw [if_pos hb]
      exact List.mem_cons_of_mem _ h
    · rw [if_neg hb]
      rcases List.mem_cons.1 h with rfl | h'
      · exact List.mem_cons_self _ _
      · exact List.mem_cons_of_mem _ (ih h')

theorem mem_insert_banner_lines {x : List Char} (b : List Char)
    {ls : List (List Char)} (h : x ∈ ls) : x ∈ insert_banner_lines b ls := by
  cases ls with
  | nil => cases h
  | cons l ls =>
    show x ∈ l :: insert_banner_aux b ls
    rcases List.mem_cons.1 h with rfl | h'
    · exact List.mem_cons_self _ _
    · exact List.mem_cons_of_mem _ (mem_insert_banner_aux b h')

theorem line_has_banner_false_of_not_cal {l : List Char} (h : ('📅') ∉ l) :
    line_has_banner l = false := by
  unfold line_has_banner
  cases hf : findOcc bannerLit l with
  | none => rfl
  | some i =>
    exfalso
    have hp := List.find?_some hf
    rw [List.isPrefixOf_iff_prefix] at hp
    have hmem : ('📅') ∈ l.drop i := by
      obtain ⟨t, ht⟩ := hp
      rw [← ht]
      exact List.mem_append_left _ (List.mem_cons_self _ _)
    exact h (List.mem_of_mem_drop hmem)

theorem update_release_date_keeps_line {c2 : String} {hd : List Char}
    (hmem : hd ∈ linesOf c2.data) (hnb : line_has_banner hd = false) (d : String) :
    hd <:+: (update_release_date c2 d).data := by
  unfold update_release_date
  by_cases hb : (linesOf c2.data).any line_has_banner = true
  · rw [if_pos hb]
    show hd <:+: joinLines ((linesOf c2.data).map
      (resub_line (("📅 Release date: **") ++ format_human_date d ++ ("**")).data))
    apply mem_joinLines_infix
    rw [List.mem_map]
    exact ⟨hd, hmem, resub_line_id _ _ hnb⟩
  · rw [if_neg hb]
    show hd <:+: joinLines (insert_banner_lines
      (("📅 Release date: **") ++ format_human_date d ++ ("**")).data (linesOf c2.data))
    exact mem_joinLines_infix (mem_insert_banner_lines _ hmem)

theorem header_data (d : String) (R : List Char) :
    ((("\n## [") ++ d ++ ("]\n")).data) ++ R
      = ('\n') :: (((("## [") ++ d ++ ("]")).data) ++ ('\n') :: R) := by
  simp [String.data_append]

theorem heading_no_newline {d : String} (hnl : ('\n') ∉ d.data) :
    ('\n') ∉ ((("## [") ++ d ++ ("]")).data) := by
  intro h
  rw [String.data_append, String.data_append] at h
  rcases List.mem_append.1 h with h1 | h1
  · rcases List.mem_append.1 h1 with h2 | h2
    · exact absurd h2 (by decide)
    · exact hnl h2
  · exact absurd h1 (by decide)

theorem heading_no_cal {d : String} (hcal : ('📅') ∉ d.data) :
    ('📅') ∉ ((("## [") ++ d ++ ("]")).data) := by
  intro h
  rw [String.data_append, String.data_append] at h
  rcases List.mem_append.1 h with h1 | h1
  · rcases List.mem_append.1 h1 with h2 | h2
    · exact absurd h2 (by decide)
    · exact hcal h2
  · exact absurd h1 (by decide)

theorem heading_infix_updated (d : String) (hnl : ('\n') ∉ d.data)
    (hcal : ('📅') ∉ d.data) (A B : List Char) :
    containsSub (update_release_date
        ⟨A ++ ('\n') :: (((("## [") ++ d ++ ("]")).data) ++ ('\n') :: B)⟩ d).data
      ((("## [") ++ d ++ ("]")).data) = true := by
  have hmem : ((("## [") ++ d ++ ("]")).data)
      ∈ linesOf ((⟨A ++ ('\n') :: (((("## [") ++ d ++ ("]")).data) ++ ('\n') :: B)⟩ : String).data) :=
    mem_of_mem_tail' (mem_tail_linesOf (heading_no_newline hnl) A B)
  exact containsSub_of_infix
    (update_release_date_keeps_line hmem
      (line_has_banner_false_of_not_cal (heading_no_cal hcal)) d)

theorem update_changelog_content_heading {d : String}
    {categorized : List (String × List String)} {stats : Bool} {content c' : String}
    (hnl : ('\n') ∉ d.data) (hcal : ('📅') ∉ d.data)
    (hgen : ∃ rest, generate_changelog_entry categorized d stats
       = some ((("\n## [") ++ d ++ ("]\n")) :: rest))
    (h : update_changelog_content d categorized stats content = some c') :
    containsSub c'.data ((("## [") ++ d ++ ("]")).data) = true := by
  obtain ⟨rest, hg⟩ := hgen
  unfold update_changelog_content at h
  by_cases hc : containsSub content.data (release_heading d).data = true
  · rw [if_pos hc] at h
    cases h
  · rw [if_neg hc] at h
    simp only [hg] at h
    cases hsplit : findOcc (("---").data) content.data with
    | some i =>
      simp only [hsplit] at h
      have hc' : c' = update_release_date
          (⟨((content.data.take i ++ ("---\n").data)
              ++ (String.join ((("\n## [") ++ d ++ ("]\n")) :: rest)).data)
            ++ content.data.drop (i + 3)⟩ : String) d := (Option.some.inj h).symm
      rw [hc']
      have hform : ((content.data.take i ++ ("---\n").data)
            ++ (String.join ((("\n## [") ++ d ++ ("]\n")) :: rest)).data)
          ++ content.data.drop (i + 3)
          = (content.data.take i ++ ("---\n").data)
            ++ ('\n') :: (((("## [") ++ d ++ ("]")).data)
              ++ ('\n') :: ((rest.map String.data).join ++ content.data.drop (i + 3))) := by
        rw [string_join_data]
        simp only [List.map_cons, List.join_cons]
        rw [List.append_assoc]
        rw [List.append_assoc]
        rw [header_data]
        simp [List.append_assoc, List.join]
      rw [hform]
      exact heading_infix_updated d hnl hcal _ _
    | none =>
      simp only [hsplit] at h
      cases hsplit2 : findOcc (("\n\n").data) content.data with
      | some i =>
        simp only [hsplit2] at h
        have hc' : c' = update_release_date
            (⟨((content.data.take (i + 2) ++ ("---\n").data)
                ++ (String.join ((("\n## [") ++ d ++ ("]\n")) :: rest)).data)
              ++ content.data.drop (i + 2)⟩ : String) d := (Option.some.inj h).symm
        rw [hc']
        have hform : ((content.data.take (i + 2) ++ ("---\n").data)
              ++ (String.join ((("\n## [") ++ d ++ ("]\n")) :: rest)).data)
            ++ content.data.drop (i + 2)
            = (content.data.take (i + 2) ++ ("---\n").data)
              ++ ('\n') :: (((("## [") ++ d ++ ("]")).data)
                ++ ('\n') :: ((rest.map String.data).join ++ content.data.drop (i + 2))) := by
          rw [string_join_data]
          simp only [List.map_cons, List.join_cons]
          rw [List.append_assoc]
          rw [List.append_assoc]
          rw [header_data]
          simp [List.append_assoc, List.join]
        rw [hform]
        exact heading_infix_updated d hnl hcal _ _
      | none =>
        simp only [hsplit2] at h
        have hc' : c' = update_release_date
            ((content ++ ("\n---\n")) ++ String.join ((("\n## [") ++ d ++ ("]\n")) :: rest)) d :=
          (Option.some.inj h).symm
        rw [hc']
        have hform : (content ++ ("\n---\n")) ++ String.join ((("\n## [") ++ d ++ ("]\n")) :: rest)
            = (⟨(content.data ++ ("\n---\n").data)
                ++ ('\n') :: (((("## [") ++ d ++ ("]")).data)
                  ++ ('\n') :: (rest.map String.data).join)⟩ : String) := by
          apply String.ext
          show ((content ++ ("\n---\n")) ++ String.join ((("\n## [") ++ d ++ ("]\n")) :: rest)).data = _
          rw [String.data_append, String.data_append, string_join_data]
          simp only [List.map_cons, List.join_cons]
          rw [header_data]
        rw [hform]
        exact heading_infix_updated d hnl hcal _ _

theorem categorize_commit_key_mem (m : String) (fs : List String) :
    ∃ c, (categorize_commit m fs, c) ∈ CATEGORIES := by
  unfold categorize_commit categorize_with
  show (∃ c, ((match category_scores (toLowerL m.data) fs CATEGORIES with
        | [] => "other"
        | x :: xs =>
          if (decide ((maxByScore x xs).2 < 2) && CATEGORIES.any fun kc => kc.1 == "other") = true
          then "other" else (maxByScore x xs).1), c) ∈ CATEGORIES)
  cases hcs : category_scores (toLowerL m.data) fs CATEGORIES with
  | nil => exact ⟨other, by decide⟩
  | cons x xs =>
    show ∃ c, ((if (decide ((maxByScore x xs).2 < 2)
        && CATEGORIES.any fun kc => kc.1 == "other") = true
      then "other" else (maxByScore x xs).1), c) ∈ CATEGORIES
    by_cases hif : (decide ((maxByScore x xs).2 < 2)
        && CATEGORIES.any fun kc => kc.1 == "other") = true
    · rw [if_pos hif]
      exact ⟨other, by decide⟩
    · rw [if_neg hif]
      have hb : maxByScore x xs ∈ category_scores (toLowerL m.data) fs CATEGORIES := by
        rw [hcs]; exact maxByScore_mem x xs
      obtain ⟨-, c, hmem, -⟩ := mem_category_scores hb
      exact ⟨c, hmem⟩

theorem mem_get_recent_commits_aux {md5 : String → String} {repoName : String}
    {since : Int} :
    ∀ {cs : List RawCommit} {seen : List String} {p : ProcessedCommit},
      p ∈ get_recent_commits_aux md5 repoName since cs seen →
      ∃ c, p = mkProcessed repoName c := by
  intro cs
  induction cs with
  | nil =>
    intro seen p hp
    simp [get_recent_commits_aux] at hp
  | cons c cs ih =>
    intro seen p hp
    by_cases hd : c.committedDate ≤ since
    · simp [get_recent_commits_aux, hd] at hp
    · by_cases hs : should_skip_commit FILTER_CONFIG c = true
      · rw [show get_recent_commits_aux md5 repoName since (c :: cs) seen
            = get_recent_commits_aux md5 repoName since cs seen by
          simp [get_recent_commits_aux, hd, hs]] at hp
        exact ih hp
      · by_cases hseen : get_commit_hash md5 (mkProcessed repoName c) ∈ seen
        · rw [show get_recent_commits_aux md5 repoName since (c :: cs) seen
              = get_recent_commits_aux md5 repoName since cs seen by
            simp [get_recent_commits_aux, hd, hs, hseen]] at hp
          exact ih hp
        · rw [show get_recent_commits_aux md5 repoName since (c :: cs) seen
              = mkProcessed repoName c :: get_recent_commits_aux md5 repoName since cs
                  (get_commit_hash md5 (mkProcessed repoName c) :: seen) by
            simp [get_recent_commits_aux, hd, hs, hseen]] at hp
          rcases List.mem_cons.1 hp with rfl | hp'
          · exact ⟨c, rfl⟩
          · exact ih hp'

theorem gather_commits_category_mem {md5 : String → String} {mainRepo pkgRepo : String}
    {mainHistory pkgHistory : List RawCommit} {since : Int} {p : ProcessedCommit}
    (hp : p ∈ gather_commits md5 mainRepo pkgRepo mainHistory pkgHistory since) :
    ∃ c, (p.category, c) ∈ CATEGORIES := by
  unfold gather_commits get_recent_commits at hp
  rcases List.mem_append.1 hp with hp' | hp' <;>
    obtain ⟨c, rfl⟩ := mem_get_recent_commits_aux hp' <;>
    exact categorize_commit_key_mem c.message c.files

theorem mem_insertByDateDesc {x c : ProcessedCommit} :
    ∀ {l : List ProcessedCommit}, x ∈ insertByDateDesc c l → x = c ∨ x ∈ l := by
  intro l
  induction l with
  | nil =>
    intro h
    rcases List.mem_cons.1 h with rfl | h'
    · exact Or.inl rfl
    · cases h'
  | cons y ys ih =>
    intro h
    unfold insertByDateDesc at h
    by_cases hle : y.date ≤ c.date
    · rw [if_pos hle] at h
      rcases List.mem_cons.1 h with rfl | h'
      · exact Or.inl rfl
      · exact Or.inr h'
    · rw [if_neg hle] at h
      rcases List.mem_cons.1 h with rfl | h'
      · exact Or.inr (List.mem_cons_self _ _)
      · rcases ih h' with h'' | h''
        · exact Or.inl h''
        · exact Or.inr (List.mem_cons_of_mem _ h'')

theorem mem_sort_commits {x : ProcessedCommit} :
    ∀ {l : List ProcessedCommit}, x ∈ sort_commits l → x ∈ l := by
  intro l
  induction l with
  | nil => intro h; cases h
  | cons y ys ih =>
    intro h
    rcases mem_insertByDateDesc h with rfl | h'
    · exact List.mem_cons_self _ _
    · exact List.mem_cons_of_mem _ (ih h')

theorem insertByDateDesc_ne_nil (c : ProcessedCommit) (l : List ProcessedCommit) :
    insertByDateDesc c l ≠ [] := by
  cases l with
  | nil => simp [insertByDateDesc]
  | cons y ys =>
    unfold insertByDateDesc
    by_cases hle : y.date ≤ c.date <;> simp [hle]

theorem sort_commits_ne_nil {l : List ProcessedCommit} (h : l ≠ []) :
    sort_commits l ≠ [] := by
  cases l with
  | nil => exact absurd rfl h
  | cons y ys => exact insertByDateDesc_ne_nil y (sort_commits ys)

theorem add_to_categorized_ne_nil (acc : List (String × List String)) (k v : String) :
    add_to_categorized acc k v ≠ [] := by
  unfold add_to_categorized
  by_cases h : acc.any (fun p => p.1 == k) = true
  · rw [if_pos h]
    intro hmap
    rw [List.map_eq_nil] at hmap
    rw [hmap] at h
    simp [List.any_nil] at h
  · rw [if_neg h]
    simp

theorem add_to_categorized_key {acc : List (String × List String)} {k v : String}
    {q : String × List String} (hq : q ∈ add_to_categorized acc k v) :
    q.1 ∈ acc.map Prod.fst ∨ q.1 = k := by
  unfold add_to_categorized at hq
  by_cases h : acc.any (fun p => p.1 == k) = true
  · rw [if_pos h] at hq
    rw [List.mem_map] at hq
    obtain ⟨p, hp, hpq⟩ := hq
    by_cases hpk : p.1 == k
    · rw [if_pos hpk] at hpq
      left
      rw [← hpq]
      show p.1 ∈ acc.map Prod.fst
      exact List.mem_map_of_mem Prod.fst hp
    · rw [if_neg hpk] at hpq
      left
      rw [← hpq]
      exact List.mem_map_of_mem Prod.fst hp
  · rw [if_neg h] at hq
    rcases List.mem_append.1 hq with hq' | hq'
    · exact Or.inl (List.mem_map_of_mem Prod.fst hq')
    · right
      rcases List.mem_cons.1 hq' with rfl | hq''
      · rfl
      · cases hq''

theorem add_to_categorized_vals {acc : List (String × List String)} {k v : String}
    (hvals : ∀ q ∈ acc, q.2 ≠ []) :
    ∀ q ∈ add_to_categorized acc k v, q.2 ≠ [] := by
  intro q hq
  unfold add_to_categorized at hq
  by_cases h : acc.any (fun p => p.1 == k) = true
  · rw [if_pos h] at hq
    rw [List.mem_map] at hq
    obtain ⟨p, hp, hpq⟩ := hq
    by_cases hpk : p.1 == k
    · rw [if_pos hpk] at hpq
      rw [← hpq]
      simp
    · rw [if_neg hpk] at hpq
      rw [← hpq]
      exact hvals p hp
  · rw [if_neg h] at hq
    rcases List.mem_append.1 hq with hq' | hq'
    · exact hvals q hq'
    · rcases List.mem_cons.1 hq' with rfl | hq''
      · simp
      · cases hq''

theorem build_categorized_aux_props :
    ∀ (l : List ProcessedCommit) (acc : List (String × List String)),
      (∀ q ∈ acc, q.2 ≠ []) →
      (∀ q ∈ l.foldl (fun acc c => add_to_categorized acc c.category c.formatted) acc,
        q.2 ≠ [] ∧ (q.1 ∈ acc.map Prod.fst ∨ ∃ c ∈ l, q.1 = c.category)) ∧
      (acc ≠ [] ∨ l ≠ [] →
        l.foldl (fun acc c => add_to_categorized acc c.category c.formatted) acc ≠ []) := by
  intro l
  induction l with
  | nil =>
    intro acc hvals
    constructor
    · intro q hq
      exact ⟨hvals q hq, Or.inl (List.mem_map_of_mem Prod.fst hq)⟩
    · intro h
      rcases h with h | h
      · exact h
      · exact absurd rfl h
  | cons c cs ih =>
    intro acc hvals
    have hstep := ih (add_to_categorized acc c.category c.formatted)
      (add_to_categorized_vals hvals)
    constructor
    · intro q hq
      obtain ⟨hne, hkey⟩ := hstep.1 q hq
      refine ⟨hne, ?_⟩
      rcases hkey with hk | hk
      · rw [List.mem_map] at hk
        obtain ⟨p, hp, hpq⟩ := hk
        rcases add_to_categorized_key hp with hk' | hk'
        · exact Or.inl (hpq ▸ hk')
        · exact Or.inr ⟨c, List.mem_cons_self _ _, by rw [← hpq]; exact hk'⟩
      · obtain ⟨c', hc', hq'⟩ := hk
        exact Or.inr ⟨c', List.mem_cons_of_mem _ hc', hq'⟩
    · intro _
      exact hstep.2 (Or.inl (add_to_categorized_ne_nil acc c.category c.formatted))

theorem entry_sections_flag_true {categorized : List (String × List String)} :
    ∀ {table : List (String × Category)} {kc : String × Category}
      {p : String × List String},
      kc ∈ table → p ∈ categorized → p.1 = kc.1 →
      (∀ q ∈ categorized, q.2 ≠ []) →
      (entry_sections categorized table).2 = true := by
  intro table
  induction table with
  | nil => intro kc p hkc; cases hkc
  | cons kc₀ T ih =>
    intro kc p hkc hp hkey hvals
    unfold entry_sections
    by_cases hemp : ((((categorized.find? (fun q => q.1 == kc₀.1)).map
        (fun q => q.2)).getD []).isEmpty) = true
    · simp only [hemp, if_pos, ite_true]
      rcases List.mem_cons.1 hkc with heq | hkc'
      · exfalso
        have hfind : ((categorized.find? (fun q => q.1 == kc₀.1))).isSome := by
          rw [List.find?_isSome]
          refine ⟨p, hp, ?_⟩
          have hpk : p.1 = kc₀.1 := by rw [hkey, heq]
          simp [hpk]
        obtain ⟨q, hq⟩ := Option.isSome_iff_exists.1 hfind
        have hqmem := List.mem_of_find?_eq_some hq
        have hqne := hvals q hqmem
        rw [hq] at hemp
        simp [List.isEmpty_iff] at hemp
        exact hqne hemp
      · exact ih hkc' hp hkey hvals
    · simp [hemp]

theorem generate_some {categorized : List (String × List String)} {d : String}
    {stats : Bool}
    (hflag : (entry_sections categorized sorted_categories).2 = true) :
    ∃ rest, generate_changelog_entry categorized d stats
      = some ((("\n## [") ++ d ++ ("]\n")) :: rest) := by
  cases stats with
  | false =>
    refine ⟨(entry_sections categorized sorted_categories).1 ++ [("---\n")], ?_⟩
    simp [generate_changelog_entry, hflag]
  | true =>
    refine ⟨((entry_sections categorized sorted_categories).1
      ++ [(("\n**Total changes:** ") ++ toString (total_count categorized)
            ++ (" commits\n"))]) ++ [("---\n")], ?_⟩
    simp [generate_changelog_entry, hflag]

theorem sorted_categories_eq : sorted_categories = CATEGORIES := by decide

/-- C1: a document already containing the `## [<release label>]` heading is
never written — `update_changelog` returns before rendering — so the document
is byte-for-byte unchanged and no second section can appear; and a second run
with the same release label and commit set on the document produced by a
first run is such a no-op, because the first run's output contains the
heading. -/
theorem C1_idempotence (d : String) (hnl : ('\n') ∉ d.data) (hcal : ('📅') ∉ d.data) :
    (∀ (categorized : List (String × List String)) (stats : Bool) (content : String),
      containsSub content.data (release_heading d).data = true →
      update_changelog_content d categorized stats content = none) ∧
    (∀ (md5 : String → String) (mainRepo pkgRepo : String)
       (mainHistory pkgHistory : List RawCommit) (since : Int) (stats : Bool)
       (content c' : String),
      update_changelog_run md5 d mainRepo pkgRepo mainHistory pkgHistory since stats content
        = some c' →
      update_changelog_run md5 d mainRepo pkgRepo mainHistory pkgHistory since stats c'
        = none) := by
  constructor
  · intro categorized stats content h
    unfold update_changelog_content
    rw [if_pos h]
  · intro md5 mainRepo pkgRepo mainHistory pkgHistory since stats content c' h
    unfold update_changelog_run at h ⊢
    by_cases hemp : (gather_commits md5 mainRepo pkgRepo mainHistory pkgHistory since).isEmpty
      = true
    · rw [if_pos hemp] at h
      cases h
    · rw [if_neg hemp] at h
      rw [if_neg hemp]
      have hne : gather_commits md5 mainRepo pkgRepo mainHistory pkgHistory since ≠ [] := by
        intro hnil
        rw [hnil] at hemp
        simp at hemp
      have hsne : sort_commits (gather_commits md5 mainRepo pkgRepo mainHistory pkgHistory since)
          ≠ [] := sort_commits_ne_nil hne
      have hprops := build_categorized_aux_props
        (sort_commits (gather_commits md5 mainRepo pkgRepo mainHistory pkgHistory since)) []
        (by intro q hq; cases hq)
      have hbne : build_categorized
          (sort_commits (gather_commits md5 mainRepo pkgRepo mainHistory pkgHistory since))
          ≠ [] := hprops.2 (Or.inr hsne)
      cases hb : build_categorized
          (sort_commits (gather_commits md5 mainRepo pkgRepo mainHistory pkgHistory since)) with
      | nil => exact absurd hb hbne
      | cons p ps =>
        have hpmem : p ∈ build_categorized
            (sort_commits (gather_commits md5 mainRepo pkgRepo mainHistory pkgHistory since)) := by
          rw [hb]
          exact List.mem_cons_self _ _
        obtain ⟨hpne, hpkey⟩ := hprops.1 p hpmem
        rcases hpkey with hk | ⟨c, hc, hk⟩
        · simp at hk
        · have hcall : c ∈ gather_commits md5 mainRepo pkgRepo mainHistory pkgHistory since :=
            mem_sort_commits hc
          obtain ⟨cc, hcc⟩ := gather_commits_category_mem hcall
          have hflag : (entry_sections
              (build_categorized (sort_commits
                (gather_commits md5 mainRepo pkgRepo mainHistory pkgHistory since)))
              sorted_categories).2 = true := by
            refine @entry_sections_flag_true _ sorted_categories (c.category, cc) p
              ?_ hpmem hk ?_
            · rw [sorted_categories_eq]
              exact hcc
            · intro q hq'
              exact (hprops.1 q hq').1
          have hgen := @generate_some _ d stats hflag
          have hcont := update_changelog_content_heading hnl hcal hgen h
          have hcont' : containsSub c'.data (release_heading d).data = true := hcont
          unfold update_changelog_content
          rw [if_pos hcont']

/-- Witness for C1: a document already containing the heading is not written,
and a second run on the scenario-A output is a no-op. -/
theorem C1_witness :
    update_changelog_content ("2024-01-01") [("bugfixes", [("x")])] false
        ("# Changelog\n\n## [2024-01-01]\nstuff\n") = none ∧
    update_changelog_run (fun s => s) ("2024-01-01") ("BananaWRT") ("packages")
        [loginCrashCommit] [] 0 false scenarioAOutput = none := by
  constructor
  · exact (C1_idempotence ("2024-01-01") (by decide) (by decide)).1
      [("bugfixes", [("x")])] false ("# Changelog\n\n## [2024-01-01]\nstuff\n") (by decide)
  · exact (C1_idempotence ("2024-01-01") (by decide) (by decide)).2
      (fun s => s) ("BananaWRT") ("packages") [loginCrashCommit] [] 0 false
      ("# Changelog\n\n---\n") scenarioAOutput (by decide)
